import Mathlib

/-!
Verification of the JSON-to-relational storage engine
(`src/json_storage/test.py` and `src/json_storage/main.py`).

The development shallowly embeds the Python source: dictionaries become
insertion-ordered association lists, the `hashlib.md5` digest is implemented
bit-faithfully over `Nat`, the sqlite3 connection state becomes explicit
record values, and Python exceptions become `Except` results.
-/

set_option maxRecDepth 100000

namespace JsonStorage

/-! ## MD5 (model of Python `hashlib.md5(...).hexdigest()`)

A bit-faithful implementation of MD5 over `Nat`, with 32-bit arithmetic
carried out modulo 2^32 via masking.  All recursion is structural so the
kernel can evaluate digests inside proofs. -/

namespace MD5

def mask32 : Nat := 4294967295

def rotl (x n : Nat) : Nat := ((x <<< n) ||| (x >>> (32 - n))) &&& mask32

/-- The 64 MD5 sine-derived round constants. -/
def kTable : List Nat := [3614090360, 3905402710, 606105819, 3250441966, 4118548399, 1200080426, 2821735955, 4249261313, 1770035416, 2336552879, 4294925233, 2304563134, 1804603682, 4254626195, 2792965006, 1236535329, 4129170786, 3225465664, 643717713, 3921069994, 3593408605, 38016083, 3634488961, 3889429448, 568446438, 3275163606, 4107603335, 1163531501, 2850285829, 4243563512, 1735328473, 2368359562, 4294588738, 2272392833, 1839030562, 4259657740, 2763975236, 1272893353, 4139469664, 3200236656, 681279174, 3936430074, 3572445317, 76029189, 3654602809, 3873151461, 530742520, 3299628645, 4096336452, 1126891415, 2878612391, 4237533241, 1700485571, 2399980690, 4293915773, 2240044497, 1873313359, 4264355552, 2734768916, 1309151649, 4149444226, 3174756917, 718787259, 3951481745]

/-- The per-round left-rotation amounts. -/
def sTable : List Nat := [7,12,17,22,7,12,17,22,7,12,17,22,7,12,17,22,5,9,14,20,5,9,14,20,5,9,14,20,5,9,14,20,4,11,16,23,4,11,16,23,4,11,16,23,4,11,16,23,6,10,15,21,6,10,15,21,6,10,15,21,6,10,15,21]

/-- UTF-8 encoding of one code point (model of Python `str.encode()`). -/
def utf8Char (c : Nat) : List Nat :=
  if c < 128 then [c]
  else if c < 2048 then [192 + c / 64, 128 + c % 64]
  else if c < 65536 then [224 + c / 4096, 128 + (c / 64) % 64, 128 + c % 64]
  else [240 + c / 262144, 128 + (c / 4096) % 64, 128 + (c / 64) % 64, 128 + c % 64]

def utf8Bytes (s : String) : List Nat := (s.data.map (fun c => utf8Char c.toNat)).flatten

def lengthBytes (n : Nat) : List Nat := (List.range 8).map (fun i => (n >>> (8*i)) &&& 255)

def padMessage (msg : List Nat) : List Nat :=
  msg ++ [128] ++ List.replicate ((119 - (msg.length % 64)) % 64) 0 ++ lengthBytes (msg.length * 8)

def word (chunk : List Nat) (j : Nat) : Nat :=
  chunk.getD (4*j) 0 + 256 * chunk.getD (4*j+1) 0 + 65536 * chunk.getD (4*j+2) 0 + 16777216 * chunk.getD (4*j+3) 0

def fG (i b c d : Nat) : Nat × Nat :=
  if i < 16 then ((b &&& c) ||| ((b ^^^ mask32) &&& d), i)
  else if i < 32 then ((d &&& b) ||| ((d ^^^ mask32) &&& c), (5*i+1) % 16)
  else if i < 48 then (b ^^^ c ^^^ d, (3*i+5) % 16)
  else (c ^^^ (b ||| (d ^^^ mask32)), (7*i) % 16)

def md5Round (chunk : List Nat) (st : Nat × Nat × Nat × Nat) (i : Nat) : Nat × Nat × Nat × Nat :=
  let (a, b, c, d) := st
  let (f, g) := fG i b c d
  let f' := (f + a + kTable.getD i 0 + word chunk g) &&& mask32
  (d, (b + rotl f' (sTable.getD i 0)) &&& mask32, b, c)

def processChunk (st : Nat × Nat × Nat × Nat) (chunk : List Nat) : Nat × Nat × Nat × Nat :=
  let (a0, b0, c0, d0) := st
  let (a, b, c, d) := (List.range 64).foldl (md5Round chunk) (a0, b0, c0, d0)
  ((a0 + a) &&& mask32, (b0 + b) &&& mask32, (c0 + c) &&& mask32, (d0 + d) &&& mask32)

/-- Split the padded message into 64-byte chunks (fuel-based so that the
kernel can reduce it). -/
def toChunksFuel : Nat → List Nat → List (List Nat)
  | 0, _ => []
  | _ + 1, [] => []
  | n + 1, l => l.take 64 :: toChunksFuel n (l.drop 64)

def toChunks (l : List Nat) : List (List Nat) := toChunksFuel l.length l

def leBytes (x : Nat) : List Nat := [x &&& 255, (x >>> 8) &&& 255, (x >>> 16) &&& 255, (x >>> 24) &&& 255]

def md5Bytes (msg : List Nat) : List Nat :=
  let (a, b, c, d) := (toChunks (padMessage msg)).foldl processChunk (1732584193, 4023233417, 2562383102, 271733878)
  leBytes a ++ leBytes b ++ leBytes c ++ leBytes d

def hexChar (n : Nat) : Char := if n < 10 then Char.ofNat (48 + n) else Char.ofNat (87 + n)

def byteHex (b : Nat) : List Char := [hexChar (b / 16), hexChar (b % 16)]

/-- Lowercase hex MD5 digest of the UTF-8 encoding of a string; the model of
`hashlib.md5(original.encode()).hexdigest()`. -/
def md5Hex (s : String) : String := ⟨((md5Bytes (utf8Bytes s)).map byteHex).flatten⟩

end MD5

/-! ## Association lists (Python `dict` with insertion order) -/

/-- Key lookup in an insertion-ordered association list (Python `d.get(k)` /
`k in d`). -/
def alookup {β : Type} : List (String × β) → String → Option β
  | [], _ => none
  | (k, v) :: t, k' => if k = k' then some v else alookup t k'

/-- Python `d[k] = v`: replace in place if the key is present, else append. -/
def aset {β : Type} : List (String × β) → String → β → List (String × β)
  | [], k, v => [(k, v)]
  | (k', v') :: t, k, v => if k' = k then (k, v) :: t else (k', v') :: aset t k v

/-- Python `d.update(d2)`: upsert every pair of `d2`, in order, into `d`. -/
def updateAll {β : Type} (a : List (String × β)) (b : List (String × β)) : List (String × β) :=
  b.foldl (fun acc p => aset acc p.1 p.2) a

/-! ## ColumnMappingManager (`test.py` lines 13-55)

The sqlite connection is reduced to the rows of the reserved mapping table
`__column_mappings__` (`hashed_name TEXT PRIMARY KEY, original_name TEXT NOT
NULL UNIQUE`), and the in-memory `self.mapping` dict is an association
list. -/

structure MapperState where
  /-- the in-memory cache `self.mapping` -/
  mapping : List (String × String)
  /-- the persisted rows of the mapping table -/
  table : List (String × String)
deriving Repr, DecidableEq

/-- `ColumnMappingManager._load_mappings`: the cache is rebuilt from the
persisted table rows. -/
def load_mappings (table : List (String × String)) : MapperState :=
  { mapping := table, table := table }

/-- `ColumnMappingManager.get_original_name`: cache lookup with the hashed
name itself as fallback. -/
def get_original_name (st : MapperState) (hashed : String) : String :=
  (alookup st.mapping hashed).getD hashed

/-- `INSERT OR IGNORE` into the mapping table: the insert is dropped when the
primary key `hashed_name` or the unique `original_name` is already present. -/
def tableInsertOrIgnore (t : List (String × String)) (hashed original : String) : List (String × String) :=
  if (alookup t hashed).isSome || (t.map Prod.snd).contains original then t
  else t ++ [(hashed, original)]

/-- `ColumnMappingManager.add_mapping`: nothing happens when `hashed` is
already cached; otherwise insert-or-ignore into the table and cache the
pair. -/
def add_mapping (st : MapperState) (hashed original : String) : MapperState :=
  if (alookup st.mapping hashed).isSome then st
  else { mapping := aset st.mapping hashed original,
         table := tableInsertOrIgnore st.table hashed original }

/-- The digest-based column identifier: `col_` followed by the MD5 hex digest
of the flat key. -/
def hashName (original : String) : String := "col_" ++ MD5.md5Hex original

/-- `hash_column_name` (`test.py` lines 50-55): compute the prefixed digest,
record the mapping, and return the identifier together with the updated
manager state. -/
def hash_column_name (original : String) (st : MapperState) : String × MapperState :=
  let prefixed := hashName original
  (prefixed, add_mapping st prefixed original)

/-! ## Documents

A document is a nested mapping from string keys to scalar values or
sub-mappings (no arrays; the source recurses on `dict` only).  The scalar
type is a parameter, since the source never inspects leaf values.  The
mutual presentation keeps every traversal structurally recursive, so the
kernel can evaluate it inside proofs. -/

mutual

inductive Json (α : Type) : Type where
  | scalar : α → Json α
  | obj : JObj α → Json α

inductive JObj (α : Type) : Type where
  | nil : JObj α
  | cons : String → Json α → JObj α → JObj α

end

/-- The keys of one nesting level, in insertion order. -/
def jkeys {α : Type} : JObj α → List String
  | .nil => []
  | .cons k _ t => k :: jkeys t

/-- Python `d.get(k)` on a document level. -/
def jlookup {α : Type} : JObj α → String → Option (Json α)
  | .nil, _ => none
  | .cons k v t, k' => if k = k' then some v else jlookup t k'

/-- Python `d[k] = v` on a document level: replace in place or append. -/
def jset {α : Type} : JObj α → String → Json α → JObj α
  | .nil, k, v => .cons k v .nil
  | .cons k' v' t, k, v => if k' = k then .cons k v t else .cons k' v' (jset t k v)

/-- Concatenation of two levels (used only to state theorems). -/
def jappend {α : Type} : JObj α → JObj α → JObj α
  | .nil, b => b
  | .cons k v t, b => .cons k v (jappend t b)

/-! ## Flattening (`flatten_json`, `test.py` lines 57-72)

`flattenAux` threads the `items` dict being built and the mapping-manager
state through the traversal; `flatten_json` starts from an empty dict.  The
`sep` parameter is always the default `"/"` at every call site, so it is
fixed here. -/

/-- `current_key = f-string of parent and key if parent_key else key`:
the parent path is extended unless it is the (falsy) empty string. -/
def childKey (parentKey key : String) : String :=
  if parentKey = "" then key else parentKey ++ "/" ++ key

def flattenAux {α : Type} : JObj α → MapperState → String → List (String × α) → List (String × α) × MapperState
  | .nil, st, _, items => (items, st)
  | .cons key (.obj m) rest, st, parentKey, items =>
      let currentKey := childKey parentKey key
      let sub := flattenAux m st currentKey []
      flattenAux rest sub.2 parentKey (updateAll items sub.1)
  | .cons key (.scalar a) rest, st, parentKey, items =>
      let currentKey := childKey parentKey key
      let hashed := hash_column_name currentKey st
      flattenAux rest hashed.2 parentKey (aset items hashed.1 a)

/-- `flatten_json(data, mapper, parent_key='', sep='/')`. -/
def flatten_json {α : Type} (data : JObj α) (st : MapperState) (parentKey : String := "") : List (String × α) × MapperState :=
  flattenAux data st parentKey []

/-! ## Splitting and joining flat keys -/

/-- Character-level model of Python `s.split('/')`. -/
def splitList : List Char → List (List Char)
  | [] => [[]]
  | c :: t =>
    if c = '/' then [] :: splitList t
    else match splitList t with
         | [] => [[c]]
         | h :: r => (c :: h) :: r

/-- `original_key.split(sep)` with the fixed separator `"/"`. -/
def splitSep (s : String) : List String := (splitList s.data).map (fun l => ⟨l⟩)

/-- Joining path segments with `"/"` (used only to state theorems). -/
def joinSegs : List String → String
  | [] => ""
  | [s] => s
  | s :: t => s ++ "/" ++ joinSegs t

/-! ## Unflattening (`unflatten_json`, `test.py` lines 138-157) -/

/-- `set_nested_item(d, keys, value)`: walk `keys` up to the last one with
`d.setdefault(key, dict())`, then assign at the last key.  Walking into a
scalar raises in Python (`AttributeError` or `TypeError` at the final
assignment); that is the `.error` case.  The final assignment overwrites
whatever is stored at the last key. -/
def setNested {α : Type} : Json α → List String → α → Except String (Json α)
  | _, [], _ => .error "IndexError"
  | .obj m, [k], v => .ok (.obj (jset m k (.scalar v)))
  | .obj m, k :: k' :: rest, v =>
      (match jlookup m k with
       | some d => setNested d (k' :: rest) v
       | none => setNested (Json.obj .nil) (k' :: rest) v).map (fun r => Json.obj (jset m k r))
  | .scalar _, _ :: _, _ => .error "TypeError"

/-- Reconstruction of a single row: fold `set_nested_item` over the row's
columns, decoding each hashed column through the mapping manager. -/
def buildRow {α : Type} (st : MapperState) (item : List (String × α)) : Except String (Json α) :=
  item.foldlM (fun d p => setNested d (splitSep (get_original_name st p.1)) p.2) (Json.obj .nil)

/-- `unflatten_json(flat_data, mapper, sep='/')`. -/
def unflatten_json {α : Type} (flatData : List (List (String × α))) (st : MapperState) : Except String (List (Json α)) :=
  flatData.mapM (buildRow st)

/-! ## String helpers shared by the condition parser and the CRUD layer -/

/-- `sep` matches the beginning of `l`. -/
def matchesAt : List Char → List Char → Bool
  | [], _ => true
  | _ :: _, [] => false
  | a :: s, c :: t => a = c && matchesAt s t

/-- Fuel-based splitting of a character list on a non-empty separator. -/
def splitStrAux (sep : List Char) : Nat → List Char → List Char → List (List Char)
  | 0, cur, _ => [cur.reverse]
  | _ + 1, cur, [] => [cur.reverse]
  | n + 1, cur, c :: t =>
      if matchesAt sep (c :: t) then cur.reverse :: splitStrAux sep n [] ((c :: t).drop sep.length)
      else splitStrAux sep n (c :: cur) t

/-- Python `s.split(sep)` for a non-empty separator string. -/
def splitStr (sep : String) (s : String) : List String :=
  (splitStrAux sep.data (s.data.length + 1) [] s.data).map (fun l => ⟨l⟩)

def isPySpace (c : Char) : Bool := c = ' ' || c = '\t' || c = '\n' || c = '\r'

/-- Python `str.strip()`. -/
def pstrip (s : String) : String :=
  ⟨((s.data.dropWhile isPySpace).reverse.dropWhile isPySpace).reverse⟩

/-- Python `'sep'.join(parts)`. -/
def joinWith (sep : String) : List String → String
  | [] => ""
  | [x] => x
  | x :: y :: t => x ++ sep ++ joinWith sep (y :: t)

/-- Python `s.endswith(suffix)`. -/
def endsWithStr (suffix s : String) : Bool := matchesAt suffix.data.reverse s.data.reverse

/-- Split a clause at the first `=` (Python `clause.split('=', 1)`); `none`
when there is no `=`, in which case the source's tuple unpacking raises. -/
def splitFirstEq : List Char → Option (List Char × List Char)
  | [] => none
  | c :: t => if c = '=' then some ([], t) else (splitFirstEq t).map (fun p => (c :: p.1, p.2))

def isQuoteO : Option Char → Bool
  | some c => c = '\'' || c = '"'
  | none => false

/-- Quote stripping in `parse_condition`: when the value both starts and ends
with a quote character, drop the first and last characters. -/
def stripQuotes (value : String) : String :=
  if isQuoteO value.data.head? && isQuoteO value.data.getLast? then ⟨(value.data.drop 1).dropLast⟩
  else value

/-! ## parse_condition / update_data / delete_data (`test.py` lines 74-136)

Each returns the SQL text together with the bound-parameter list; the SQL is
never executed here, so the pair is exactly what `conn.execute(query, params)`
receives. -/

/-- `parse_condition(condition, mapper)`: split on `' AND '`, split each
clause at the first `=`, hash the key, emit `hashed = ?` and collect the
(unquoted) value as a bound parameter. -/
def parse_condition (condition : String) (st : MapperState) : Except String ((String × List String) × MapperState) :=
  ((splitStr " AND " condition).foldlM
    (fun (acc : List String × List String × MapperState) (clause : String) =>
      (match splitFirstEq clause.data with
       | none => .error "ValueError"
       | some p =>
          let key := pstrip ⟨p.1⟩
          let value := pstrip ⟨p.2⟩
          let hashed := hash_column_name key acc.2.2
          .ok (acc.1 ++ [hashed.1 ++ " = ?"], acc.2.1 ++ [stripQuotes value], hashed.2) :
        Except String (List String × List String × MapperState)))
    ([], [], st)).map (fun acc => ((joinWith " AND " acc.1, acc.2.1), acc.2.2))

/-- `update_data`: hash the data keys (a dict comprehension, hence the
`aset` fold), parse the condition, and build the parameterized `UPDATE`
text with its parameter list. -/
def update_data (tableName : String) (data : List (String × String)) (whereCondition : String) (st : MapperState) : Except String ((String × List String) × MapperState) :=
  let hashedData := data.foldl (fun (acc : List (String × String) × MapperState) p =>
      let h := hash_column_name p.1 acc.2
      (aset acc.1 h.1 p.2, h.2)) ([], st)
  (parse_condition whereCondition hashedData.2).map (fun pc =>
    let setClause := joinWith ", " (hashedData.1.map (fun p => p.1 ++ " = ?"))
    let params := hashedData.1.map Prod.snd ++ pc.1.2
    let query := "\n        UPDATE " ++ tableName ++ "\n        SET " ++ setClause ++ "\n        WHERE " ++ pc.1.1 ++ "\n    "
    ((query, params), pc.2))

/-- `delete_data`: parameterized `DELETE` built from the parsed condition. -/
def delete_data (tableName : String) (whereCondition : String) (st : MapperState) : Except String ((String × List String) × MapperState) :=
  (parse_condition whereCondition st).map (fun pc =>
    (("DELETE FROM " ++ tableName ++ " WHERE " ++ pc.1.1, pc.1.2), pc.2))

/-! ## The relational engine (sqlite3 collaborator)

Values stored in a `TEXT`-affinity column are `NULL`, integers converted to
their decimal text, or text; `ORDER BY` compares `NULL < numeric < text`,
integers numerically and text bytewise.  A negative `OFFSET` skips nothing
and a negative `LIMIT` means no limit. -/

inductive SqlVal : Type where
  | null : SqlVal
  | intg : Int → SqlVal
  | text : String → SqlVal
deriving Repr, DecidableEq

/-- TEXT column affinity applied when a bound parameter is stored. -/
def applyTextAffinity : SqlVal → SqlVal
  | .intg i => .text (toString i)
  | v => v

def strLtB : List Char → List Char → Bool
  | [], [] => false
  | [], _ :: _ => true
  | _ :: _, [] => false
  | a :: s, b :: t => if a = b then strLtB s t else decide (a.toNat < b.toNat)

/-- The sqlite cross-storage-class ordering used by `ORDER BY`. -/
def sqlLe (a b : SqlVal) : Bool :=
  match a, b with
  | .null, _ => true
  | _, .null => false
  | .intg i, .intg j => decide (i ≤ j)
  | .intg _, .text _ => true
  | .text _, .intg _ => false
  | .text s, .text t => !(strLtB t.data s.data)

/-- One stored row: column identifier to stored value. -/
abbrev Row := List (String × SqlVal)

def rowVal (r : Row) (c : String) : SqlVal := (alookup r c).getD .null

structure TableState where
  schema : List String
  pks : List String
  indexes : List String
  rows : List Row
deriving Repr, DecidableEq

/-- `create_table` (`test.py` lines 368-390): create the table with the given
columns when absent (every column `TEXT`, primary keys marked), otherwise add
the missing columns; then create the missing secondary indexes. -/
def create_table (ts : Option TableState) (columns pks idxs : List String) : TableState :=
  match ts with
  | none =>
      { schema := columns, pks := pks,
        indexes := idxs.filter (fun c => !pks.contains c), rows := [] }
  | some t =>
      { t with
        schema := t.schema ++ columns.filter (fun c => !t.schema.contains c),
        indexes := t.indexes ++ ((idxs.filter (fun c => !pks.contains c)).filter (fun c => !t.indexes.contains c)) }

/-- `insert_data` (`test.py` lines 394-412): add the data's columns missing
from the schema, then `INSERT OR REPLACE`; the replace removes rows agreeing
with the new row on every (non-`NULL`) primary-key value. -/
def insert_data (ts : TableState) (data : List (String × SqlVal)) : TableState :=
  let schema' := ts.schema ++ (data.map Prod.fst).filter (fun c => !ts.schema.contains c)
  let newRow : Row := data.map (fun p => (p.1, applyTextAffinity p.2))
  let conflicts := fun r => !ts.pks.isEmpty &&
    ts.pks.all (fun c => rowVal newRow c ≠ SqlVal.null && rowVal r c == rowVal newRow c)
  { ts with schema := schema', rows := ts.rows.filter (fun r => !conflicts r) ++ [newRow] }

/-- Primary-key derivation in `main()`: columns whose original name ends in
`_pri` (`COLUMN_SUFFIX` convention). -/
def derivePrimaryKeys (st : MapperState) (cols : List String) : List String :=
  cols.filter (fun c => endsWithStr "_pri" (get_original_name st c))

/-- Index derivation in `main()`: original name ends in `_ind`. -/
def deriveIndexed (st : MapperState) (cols : List String) : List String :=
  cols.filter (fun c => endsWithStr "_ind" (get_original_name st c))

/-! ## Paginated query (`query_with_pagination`, `test.py` lines 188-216) -/

def pageOffset (page pageSize : Int) : Int := (page - 1) * pageSize

/-- `COALESCE(col, 0)`: a missing or `NULL` sort value becomes integer 0. -/
def coalesceKey (r : Row) (col : String) : SqlVal :=
  match rowVal r col with
  | .null => .intg 0
  | v => v

def orderLe (col dir : String) (r1 r2 : Row) : Bool :=
  if dir = "DESC" then sqlLe (coalesceKey r2 col) (coalesceKey r1 col)
  else sqlLe (coalesceKey r1 col) (coalesceKey r2 col)

def insertSorted {γ : Type} (le : γ → γ → Bool) (x : γ) : List γ → List γ
  | [] => [x]
  | y :: t => if le x y then x :: y :: t else y :: insertSorted le x t

/-- Deterministic model of the engine's `ORDER BY` sort. -/
def sortByLe {γ : Type} (le : γ → γ → Bool) : List γ → List γ
  | [] => []
  | x :: t => insertSorted le x (sortByLe le t)

/-- sqlite `LIMIT ? OFFSET ?` semantics. -/
def limitOffset {γ : Type} (l : List γ) (limit offset : Int) : List γ :=
  let l' := l.drop offset.toNat
  if limit < 0 then l' else l'.take limit.toNat

/-- `SELECT *`: every row materialized over the full schema, absent columns
as `NULL`. -/
def selectStar (ts : TableState) : List Row :=
  ts.rows.map (fun r => ts.schema.map (fun c => (c, rowVal r c)))

/-- `query_with_pagination(conn, mapper, table_name, order_field, order_dir,
page, page_size)`: hash the order field (recording its mapping), compute
`offset = (page - 1) * page_size`, sort by `COALESCE(hashed, 0)`, apply
`LIMIT/OFFSET`, and unflatten the resulting rows (`NULL`s included). -/
def query_with_pagination (ts : TableState) (st : MapperState) (orderField orderDir : String) (page pageSize : Int) : Except String (List (Json SqlVal)) × MapperState :=
  let hashed := hash_column_name orderField st
  let offset := pageOffset page pageSize
  if !ts.schema.contains hashed.1 then (.error "no such column", hashed.2)
  else
    let sorted := sortByLe (orderLe hashed.1 orderDir) (selectStar ts)
    let rows := limitOffset sorted pageSize offset
    (unflatten_json rows hashed.2, hashed.2)

/-! ## The HTTP CRUD layer's insert (`main.py` lines 35-48)

`insert_json` builds its `INSERT` statement by interpolating the rendered
values directly into the SQL text and executes it with no bound parameters.
`json.dumps` is modeled for escape-free inputs with its default separators. -/

inductive PPrim : Type where
  | s : String → PPrim
  | i : Int → PPrim
deriving Repr, DecidableEq

def jvalues {α : Type} : JObj α → List (Json α)
  | .nil => []
  | .cons _ v t => v :: jvalues t

mutual

def jsonDumps : Json PPrim → String
  | .scalar (.s s) => "\"" ++ s ++ "\""
  | .scalar (.i n) => toString n
  | .obj m => "\x7b" ++ jsonDumpsObj m ++ "\x7d"

def jsonDumpsObj : JObj PPrim → String
  | .nil => ""
  | .cons k v .nil => "\"" ++ k ++ "\": " ++ jsonDumps v
  | .cons k v (.cons k' v' t) => "\"" ++ k ++ "\": " ++ jsonDumps v ++ ", " ++ jsonDumpsObj (.cons k' v' t)

end

/-- The value-rendering branch of `insert_json`: dicts as quoted JSON text,
strings quoted, anything else via `str(value)`. -/
def pyValueSql : Json PPrim → String
  | .obj m => "'" ++ jsonDumps (.obj m) ++ "'"
  | .scalar (.s s) => "'" ++ s ++ "'"
  | .scalar (.i n) => toString n

/-- `table_name = uri.replace('/', '_')`. -/
def replaceSlash (s : String) : String := ⟨s.data.map (fun c => if c = '/' then '_' else c)⟩

/-- The exact SQL text `insert_json` passes to `cursor.execute`, with the
user-supplied values interpolated into it. -/
def insert_json_query (uri : String) (jsonData : JObj PPrim) : String :=
  let tableName := replaceSlash uri
  let fields := joinWith ", " (jkeys jsonData)
  let values := joinWith ", " ((jvalues jsonData).map pyValueSql)
  "\n        INSERT INTO " ++ tableName ++ " (" ++ fields ++ ") VALUES (" ++ values ++ ")\n    "

/-! ## The two-document scenario of `main()` (`test.py` lines 286-341) -/

def test_data_1 : JObj SqlVal :=
  .cons "user_pri" (.scalar (.text "U1"))
    (.cons "details" (.obj (.cons "age_ind" (.scalar (.intg 25))
      (.cons "address" (.obj (.cons "city" (.scalar (.text "Shanghai")) .nil)) .nil))) .nil)

def test_data_2 : JObj SqlVal :=
  .cons "user_pri" (.scalar (.text "U2"))
    (.cons "details" (.obj (.cons "age2_ind" (.scalar (.intg 30))
      (.cons "address" (.obj (.cons "city" (.scalar (.text "Beijing")) .nil)) .nil))) .nil)

/-- `flat = flatten_json(test_data_1, mapper)` on a fresh database. -/
def scFlat1 : List (String × SqlVal) × MapperState := flatten_json test_data_1 (load_mappings [])

/-- `flat_2 = flatten_json(test_data_2, mapper)`. -/
def scFlat2 : List (String × SqlVal) × MapperState := flatten_json test_data_2 scFlat1.2

/-- `create_table(conn, table_name, flat.keys(), primary_keys, indexed_columns)`. -/
def scTable0 : TableState :=
  create_table none (scFlat1.1.map Prod.fst)
    (derivePrimaryKeys scFlat2.2 (scFlat1.1.map Prod.fst))
    (deriveIndexed scFlat2.2 (scFlat1.1.map Prod.fst))

/-- The table after `insert_data(conn, table_name, flat)` and
`insert_data(conn, table_name, flat_2)`. -/
def scTable : TableState := insert_data (insert_data scTable0 scFlat1.1) scFlat2.1

/-- The reconstructed U1 document as the paginated query returns it: the
stored scalars are text (TEXT affinity) and the column U1 never had is a
`NULL` leaf (`restore_data_with_filter` would strip it later). -/
def scDocU1 : Json SqlVal :=
  .obj (.cons "user_pri" (.scalar (.text "U1"))
    (.cons "details" (.obj (.cons "age_ind" (.scalar (.text "25"))
      (.cons "address" (.obj (.cons "city" (.scalar (.text "Shanghai")) .nil))
        (.cons "age2_ind" (.scalar .null) .nil)))) .nil))

/-- The reconstructed U2 document; its `details/age_ind` is `NULL`. -/
def scDocU2 : Json SqlVal :=
  .obj (.cons "user_pri" (.scalar (.text "U2"))
    (.cons "details" (.obj (.cons "age_ind" (.scalar .null)
      (.cons "address" (.obj (.cons "city" (.scalar (.text "Beijing")) .nil))
        (.cons "age2_ind" (.scalar (.text "30")) .nil)))) .nil))

/-! ## Claim C2 -/

/-- C2: recording a second, different flat key for an already-recorded
column identifier raises no error at all: `add_mapping` silently keeps the
first recorded pair and leaves the whole state unchanged (first conjunct),
as the concrete two-call sequence shows (second conjunct).  The spec
mandates a `SchemaConflict` error here, which the code cannot produce: the
function has no error outcome. -/
theorem c2_add_mapping_keeps_first_silently :
    (∀ (s : MapperState) (h o o' : String),
      alookup s.mapping h = some o → add_mapping s h o' = s) ∧
    add_mapping (add_mapping (load_mappings []) "col_x" "k1") "col_x" "k2" =
      add_mapping (load_mappings []) "col_x" "k1" := by
  constructor
  · intro s h o o' hm
    simp [add_mapping, hm]
  · rfl

/-- Witness: the general part of C2's theorem applied to the concrete state
holding `col_x ↦ k1`. -/
theorem c2_add_mapping_keeps_first_silently_witness :
    add_mapping ⟨[("col_x", "k1")], [("col_x", "k1")]⟩ "col_x" "k2" =
      ⟨[("col_x", "k1")], [("col_x", "k1")]⟩ :=
  c2_add_mapping_keeps_first_silently.1 ⟨[("col_x", "k1")], [("col_x", "k1")]⟩ "col_x" "k1" "k2" rfl

/-! ## Claim C3 -/

/-- C3: the CRUD layer's `insert_json` concatenates user-supplied values
into the SQL text instead of binding them: the statement it executes for
the document mapping `name` to `John` literally contains `'John'`, and
changing only the value changes the SQL text. -/
theorem c3_insert_json_interpolates_values :
    insert_json_query "root/first_level" (.cons "name" (.scalar (.s "John")) .nil) =
      "\n        INSERT INTO root_first_level (name) VALUES ('John')\n    " ∧
    insert_json_query "root/first_level" (.cons "name" (.scalar (.s "Jane")) .nil) ≠
      insert_json_query "root/first_level" (.cons "name" (.scalar (.s "John")) .nil) := by
  exact ⟨rfl, by decide⟩

/-! ## Claim C4 -/

/-- C4: `query_with_pagination` does compute `offset = (page - 1) *
page_size`, but performs no validation of `page` or `page_size`: called with
`page = 0` it computes the negative offset `-2`, which sqlite treats as 0,
and executes normally, returning the same rows as page 1 instead of an
`InvalidArgument` error. -/
theorem c4_pagination_executes_invalid_page :
    (∀ page pageSize : Int, pageOffset page pageSize = (page - 1) * pageSize) ∧
    pageOffset 0 2 = -2 ∧
    (query_with_pagination scTable scFlat2.2 "details/age_ind" "DESC" 0 2).1 =
      .ok [scDocU1, scDocU2] := by
  refine ⟨fun _ _ => rfl, rfl, ?_⟩
  rfl

/-! ## Claim C5 -/

/-- C5: the paginated query's sort never drops a row (first conjunct), a row
missing the order-by column gets the fixed default sort key integer 0
(second conjunct), and in the two-document scenario ordered by
`details/age_ind` descending the U1 row (age 25, stored as text) precedes
the U2 row (no `age_ind`, sorting as 0). -/
theorem c5_null_tolerant_ordering :
    (∀ (γ : Type) (le : γ → γ → Bool) (l : List γ), (sortByLe le l).length = l.length) ∧
    (∀ (r : Row) (col : String), alookup r col = none → coalesceKey r col = SqlVal.intg 0) ∧
    (query_with_pagination scTable scFlat2.2 "details/age_ind" "DESC" 1 2).1 =
      .ok [scDocU1, scDocU2] := by
  refine ⟨?_, ?_, ?_⟩
  · intro γ le l
    induction l with
    | nil => rfl
    | cons x t ih =>
        have hlen : ∀ (x : γ) (l : List γ), (insertSorted le x l).length = l.length + 1 := by
          intro x l
          induction l with
          | nil => rfl
          | cons y t ih' =>
              by_cases hle : le x y = true
              · simp [insertSorted, hle]
              · simp [insertSorted, hle, ih']
        simp [sortByLe, hlen, ih]
  · intro r col hnone
    simp [coalesceKey, rowVal, hnone]
  · rfl

/-- Witness for C5: a row that lacks the order-by column sorts with key 0. -/
theorem c5_null_tolerant_ordering_witness :
    coalesceKey [("other", SqlVal.text "x")] "col_missing" = SqlVal.intg 0 :=
  c5_null_tolerant_ordering.2.1 [("other", SqlVal.text "x")] "col_missing" rfl

/-! ## Claim C8 -/

/-- C8: during unflattening, a row that assigns a scalar at a path that is a
strict prefix of another key's path does not fail: when the longer path comes
first, the code silently replaces the already-built sub-mapping with the
scalar (last write wins) and returns success. -/
theorem c8_unflatten_overwrites_submapping_silently :
    unflatten_json (α := String) [[("a/b", "1"), ("a", "2")]] (load_mappings []) =
      .ok [.obj (.cons "a" (.scalar "2") .nil)] := by
  rfl

/-! ## Claim C9 -/

/-- C9: `hash_column_name` returns the `col_`-prefixed MD5 digest of the
flat key alone: the returned identifier is independent of the manager state,
hence identical in the same process or in a fresh process whose mappings
were reloaded from any persisted table, with no salt or run-dependent
input. -/
theorem c9_encode_deterministic :
    ∀ (k : String) (s1 s2 : MapperState) (t : List (String × String)),
      (hash_column_name k s1).1 = (hash_column_name k s2).1 ∧
      (hash_column_name k (load_mappings t)).1 = "col_" ++ MD5.md5Hex k :=
  fun _ _ _ _ => ⟨rfl, rfl⟩

/-! ## Association-list lemmas -/

theorem alookup_aset_self {β : Type} (l : List (String × β)) (k : String) (v : β) :
    alookup (aset l k v) k = some v := by
  induction l with
  | nil => simp [aset, alookup]
  | cons p t ih =>
      by_cases hk : p.1 = k
      · simp [aset, hk, alookup]
      · simp [aset, hk, alookup, ih]

theorem alookup_aset_ne {β : Type} (l : List (String × β)) (k k' : String) (v : β) (h : k ≠ k') :
    alookup (aset l k v) k' = alookup l k' := by
  induction l with
  | nil => simp [aset, alookup, h]
  | cons p t ih =>
      by_cases hk : p.1 = k
      · subst hk
        simp [aset, alookup, h]
      · simp [aset, hk, alookup, ih]

theorem alookup_append_some {β : Type} (l l' : List (String × β)) (k : String) (v : β)
    (h : alookup l k = some v) : alookup (l ++ l') k = some v := by
  induction l with
  | nil => simp [alookup] at h
  | cons p t ih =>
      by_cases hk : p.1 = k
      · simpa [alookup, hk] using h
      · simp [alookup, hk] at h ⊢
        exact ih h

theorem alookup_append_none {β : Type} (l : List (String × β)) (k k' : String) (v : β)
    (hn : alookup l k' = none) (hk : k ≠ k') : alookup (l ++ [(k, v)]) k' = none := by
  induction l with
  | nil => simp [alookup, hk]
  | cons p t ih =>
      by_cases hp : p.1 = k'
      · simp [alookup, hp] at hn
      · simp [alookup, hp] at hn ⊢
        exact ih hn

theorem alookup_append_self {β : Type} (l : List (String × β)) (k : String) (v : β)
    (hn : alookup l k = none) : alookup (l ++ [(k, v)]) k = some v := by
  induction l with
  | nil => simp [alookup]
  | cons p t ih =>
      by_cases hp : p.1 = k
      · simp [alookup, hp] at hn
      · simp [alookup, hp] at hn ⊢
        exact ih hn

/-! ## Claim C6 -/

theorem mem_addMissing (base l : List String) (c : String) :
    c ∈ base ++ l.filter (fun x => !(base.contains x)) ↔ c ∈ base ∨ c ∈ l := by
  simp only [List.mem_append, List.mem_filter, Bool.not_eq_true', List.contains,
    ← Bool.not_eq_true, List.elem_iff]
  tauto

/-- C6: writing flat documents `d1` then `d2` into a freshly created
collection table leaves the schema with exactly the union of both column
sets, and each write only appends columns: the earlier schema is an exact
prefix of the later one, so no column is ever removed or altered. -/
theorem c6_schema_growth :
    ∀ (d1 d2 : List (String × SqlVal)) (pks idxs : List String),
      (∀ c, c ∈ (insert_data (insert_data (create_table none (d1.map Prod.fst) pks idxs) d1) d2).schema
         ↔ c ∈ d1.map Prod.fst ∨ c ∈ d2.map Prod.fst) ∧
      (∃ ext, (insert_data (insert_data (create_table none (d1.map Prod.fst) pks idxs) d1) d2).schema
         = (insert_data (create_table none (d1.map Prod.fst) pks idxs) d1).schema ++ ext) ∧
      (∃ ext, (insert_data (create_table none (d1.map Prod.fst) pks idxs) d1).schema
         = (create_table none (d1.map Prod.fst) pks idxs).schema ++ ext) := by
  intro d1 d2 pks idxs
  refine ⟨?_, ⟨_, rfl⟩, ⟨_, rfl⟩⟩
  intro c
  have h2 : (insert_data (insert_data (create_table none (d1.map Prod.fst) pks idxs) d1) d2).schema
      = (insert_data (create_table none (d1.map Prod.fst) pks idxs) d1).schema
        ++ (d2.map Prod.fst).filter
            (fun x => !((insert_data (create_table none (d1.map Prod.fst) pks idxs) d1).schema.contains x)) := rfl
  have h1 : (insert_data (create_table none (d1.map Prod.fst) pks idxs) d1).schema
      = (d1.map Prod.fst) ++ (d1.map Prod.fst).filter (fun x => !((d1.map Prod.fst).contains x)) := rfl
  rw [h2, mem_addMissing, h1, mem_addMissing]
  tauto

/-! ## Claim C7 -/

/-- A sequence of `add_mapping` calls, applied in order. -/
def applyCalls (s : MapperState) (calls : List (String × String)) : MapperState :=
  calls.foldl (fun s p => add_mapping s p.1 p.2) s

theorem add_mapping_cache_stable (s : MapperState) (h o h' o' : String)
    (hm : alookup s.mapping h = some o) : alookup (add_mapping s h' o').mapping h = some o := by
  unfold add_mapping
  by_cases hc : (alookup s.mapping h').isSome
  · simp [hc, hm]
  · simp only [hc, Bool.false_eq_true, if_false]
    by_cases heq : h' = h
    · subst heq
      simp [hm] at hc
    · simpa [alookup_aset_ne _ _ _ _ heq] using hm

theorem add_mapping_table_stable (s : MapperState) (h o h' o' : String)
    (hm : alookup s.table h = some o) : alookup (add_mapping s h' o').table h = some o := by
  unfold add_mapping tableInsertOrIgnore
  by_cases hc : (alookup s.mapping h').isSome
  · simp [hc, hm]
  · by_cases hins : ((alookup s.table h').isSome || ((s.table.map Prod.snd).contains o')) = true
    · simp only [hc, Bool.false_eq_true, if_false]
      rw [if_pos hins]
      exact hm
    · simp only [hc, Bool.false_eq_true, if_false]
      rw [if_neg hins]
      exact alookup_append_some _ _ _ _ hm

theorem applyCalls_cache_stable (calls : List (String × String)) :
    ∀ (s : MapperState) (h o : String), alookup s.mapping h = some o →
      alookup (applyCalls s calls).mapping h = some o := by
  induction calls with
  | nil => intro s h o hm; exact hm
  | cons c t ih =>
      intro s h o hm
      exact ih _ _ _ (add_mapping_cache_stable s h o c.1 c.2 hm)

theorem applyCalls_table_stable (calls : List (String × String)) :
    ∀ (s : MapperState) (h o : String), alookup s.table h = some o →
      alookup (applyCalls s calls).table h = some o := by
  induction calls with
  | nil => intro s h o hm; exact hm
  | cons c t ih =>
      intro s h o hm
      exact ih _ _ _ (add_mapping_table_stable s h o c.1 c.2 hm)

theorem add_mapping_cache_self (s : MapperState) (h o : String)
    (hn : alookup s.mapping h = none) : alookup (add_mapping s h o).mapping h = some o := by
  unfold add_mapping
  simp only [hn, Option.isSome_none, Bool.false_eq_true, if_false]
  exact alookup_aset_self _ _ _

theorem add_mapping_cache_none (s : MapperState) (h h' o' : String)
    (hn : alookup s.mapping h = none) (hne : h' ≠ h) :
    alookup (add_mapping s h' o').mapping h = none := by
  unfold add_mapping
  by_cases hc : (alookup s.mapping h').isSome
  · simp [hc, hn]
  · simp only [hc, Bool.false_eq_true, if_false]
    simpa [alookup_aset_ne _ _ _ _ hne] using hn

theorem add_mapping_cache_isSome (s : MapperState) (h h' o' : String)
    (hc : (alookup s.mapping h).isSome) : (alookup (add_mapping s h' o').mapping h).isSome := by
  cases hx : alookup s.mapping h with
  | none => simp [hx] at hc
  | some o => simp [add_mapping_cache_stable s h o h' o' hx]

theorem add_mapping_table_none (s : MapperState) (h h' o' : String)
    (hn : alookup s.table h = none) (hne : h' ≠ h) :
    alookup (add_mapping s h' o').table h = none := by
  unfold add_mapping tableInsertOrIgnore
  by_cases hc : (alookup s.mapping h').isSome
  · simp [hc, hn]
  · by_cases hins : ((alookup s.table h').isSome || ((s.table.map Prod.snd).contains o')) = true
    · simp only [hc, Bool.false_eq_true, if_false]
      rw [if_pos hins]
      exact hn
    · simp only [hc, Bool.false_eq_true, if_false]
      rw [if_neg hins]
      exact alookup_append_none _ _ _ _ hn hne

theorem applyCalls_table_none (calls : List (String × String)) :
    ∀ (s : MapperState) (h : String), (alookup s.mapping h).isSome →
      alookup s.table h = none → alookup (applyCalls s calls).table h = none := by
  induction calls with
  | nil => intro s h _ hn; exact hn
  | cons c t ih =>
      intro s h hc hn
      by_cases hch : c.1 = h
      · subst hch
        have hskip : add_mapping s c.1 c.2 = s := by
          unfold add_mapping
          simp [hc]
        show alookup (applyCalls (add_mapping s c.1 c.2) t).table c.1 = none
        rw [hskip]
        exact ih s c.1 hc hn
      · exact ih _ _ (add_mapping_cache_isSome s h c.1 c.2 hc)
          (add_mapping_table_none s h c.1 c.2 hn hch)

theorem applyCalls_cache_first (calls : List (String × String)) :
    ∀ (s : MapperState) (h o : String), alookup s.mapping h = none →
      alookup (applyCalls s calls).mapping h = some o →
      (calls.find? (fun p => p.1 == h)).map Prod.snd = some o := by
  induction calls with
  | nil =>
      intro s h o hn hfinal
      simp [applyCalls] at hfinal
      rw [hn] at hfinal
      cases hfinal
  | cons c t ih =>
      intro s h o hn hfinal
      by_cases hch : c.1 = h
      · subst hch
        have hself : alookup (add_mapping s c.1 c.2).mapping c.1 = some c.2 :=
          add_mapping_cache_self s c.1 c.2 hn
        have hstable : alookup (applyCalls (add_mapping s c.1 c.2) t).mapping c.1 = some c.2 :=
          applyCalls_cache_stable t _ _ _ hself
        have : some c.2 = some o := by
          rw [← hstable]
          exact hfinal
        rw [List.find?_cons_of_pos _ (by simp)]
        simpa using this
      · have hnone : alookup (add_mapping s c.1 c.2).mapping h = none :=
          add_mapping_cache_none s h c.1 c.2 hn hch
        rw [List.find?_cons_of_neg _ (by simp [hch])]
        exact ih _ _ _ hnone hfinal

theorem applyCalls_table_first (calls : List (String × String)) :
    ∀ (s : MapperState) (h o : String), alookup s.mapping h = none →
      alookup s.table h = none →
      alookup (applyCalls s calls).table h = some o →
      (calls.find? (fun p => p.1 == h)).map Prod.snd = some o := by
  induction calls with
  | nil =>
      intro s h o _ hn hfinal
      simp [applyCalls] at hfinal
      rw [hn] at hfinal
      cases hfinal
  | cons c t ih =>
      intro s h o hcn htn hfinal
      by_cases hch : c.1 = h
      · subst hch
        have hcself : alookup (add_mapping s c.1 c.2).mapping c.1 = some c.2 :=
          add_mapping_cache_self s c.1 c.2 hcn
        by_cases hins : ((alookup s.table c.1).isSome || ((s.table.map Prod.snd).contains c.2)) = true
        · -- the insert is ignored (`original_name` unique): the table never
          -- acquires an entry for this identifier
          have htable : alookup (add_mapping s c.1 c.2).table c.1 = none := by
            unfold add_mapping tableInsertOrIgnore
            simp only [hcn, Option.isSome_none, Bool.false_eq_true, if_false]
            rw [if_pos hins]
            exact htn
          have hnone : alookup (applyCalls (add_mapping s c.1 c.2) t).table c.1 = none :=
            applyCalls_table_none t _ _ (by simp [hcself]) htable
          have hfin : alookup (applyCalls (add_mapping s c.1 c.2) t).table c.1 = some o := hfinal
          rw [hnone] at hfin
          cases hfin
        · have htable : alookup (add_mapping s c.1 c.2).table c.1 = some c.2 := by
            unfold add_mapping tableInsertOrIgnore
            simp only [hcn, Option.isSome_none, Bool.false_eq_true, if_false]
            rw [if_neg hins]
            exact alookup_append_self _ _ _ htn
          have hstable : alookup (applyCalls (add_mapping s c.1 c.2) t).table c.1 = some c.2 :=
            applyCalls_table_stable t _ _ _ htable
          have : some c.2 = some o := by
            rw [← hstable]
            exact hfinal
          rw [List.find?_cons_of_pos _ (by simp)]
          simpa using this
      · have hcnone : alookup (add_mapping s c.1 c.2).mapping h = none :=
          add_mapping_cache_none s h c.1 c.2 hcn hch
        have htnone : alookup (add_mapping s c.1 c.2).table h = none :=
          add_mapping_table_none s h c.1 c.2 htn hch
        rw [List.find?_cons_of_neg _ (by simp [hch])]
        exact ih _ _ _ hcnone htnone hfinal

/-- C7: once a column identifier has a recorded flat key, no later
`add_mapping` call changes it — in the in-memory cache (first conjunct) and
in the persisted table (second conjunct) — and starting from a fresh store,
whatever either store retains for an identifier is the pair from the first
call that introduced it (third and fourth conjuncts). -/
theorem c7_first_write_wins :
    ∀ (calls : List (String × String)) (s : MapperState) (h o : String),
      (alookup s.mapping h = some o → alookup (applyCalls s calls).mapping h = some o) ∧
      (alookup s.table h = some o → alookup (applyCalls s calls).table h = some o) ∧
      (alookup (applyCalls (load_mappings []) calls).mapping h = some o →
        (calls.find? (fun p => p.1 == h)).map Prod.snd = some o) ∧
      (alookup (applyCalls (load_mappings []) calls).table h = some o →
        (calls.find? (fun p => p.1 == h)).map Prod.snd = some o) := by
  intro calls s h o
  exact ⟨applyCalls_cache_stable calls s h o,
         applyCalls_table_stable calls s h o,
         applyCalls_cache_first calls (load_mappings []) h o rfl,
         applyCalls_table_first calls (load_mappings []) h o rfl rfl⟩

/-- Witness for C7: after recording `col_x ↦ k1` and then attempting
`col_x ↦ k2`, both stores still hold `k1`, the first-recorded flat key. -/
theorem c7_first_write_wins_witness :
    alookup (applyCalls (load_mappings []) [("col_x", "k1"), ("col_x", "k2")]).mapping "col_x" = some "k1" ∧
    ([("col_x", "k1"), ("col_x", "k2")].find? (fun p => p.1 == "col_x")).map Prod.snd = some "k1" := by
  have h := (c7_first_write_wins [("col_x", "k1"), ("col_x", "k2")]
    (load_mappings []) "col_x" "k1").2.2.1
  exact ⟨by rfl, h (by rfl)⟩

/-! ## Specification gadgets for the round trip (claims C1, C10)

`flatKV` restates the traversal order of `flattenAux` as the list of
(flat key, value) pairs it emits; `flatPairs` gives the same pairs with the
key as its segment list; `wfObj` is the well-formedness condition of the
amended round-trip claim. -/

/-- The (flat key, scalar) pairs of a document level, in traversal order,
with the keys built exactly as `flatten_json` builds them. -/
def flatKV {α : Type} : JObj α → String → List (String × α)
  | .nil, _ => []
  | .cons k (.scalar a) t, parent => (childKey parent k, a) :: flatKV t parent
  | .cons k (.obj m) t, parent => flatKV m (childKey parent k) ++ flatKV t parent

/-- The flat keys of a document level, in traversal order. -/
def flatKeys {α : Type} (m : JObj α) (parent : String) : List String :=
  (flatKV m parent).map Prod.fst

/-- The (segment path, scalar) pairs of a document, in traversal order. -/
def flatPairs {α : Type} : JObj α → List (List String × α)
  | .nil => []
  | .cons k (.scalar a) t => ([k], a) :: flatPairs t
  | .cons k (.obj m) t => (flatPairs m).map (fun p => (k :: p.1, p.2)) ++ flatPairs t

def jIsNil {α : Type} : JObj α → Bool
  | .nil => true
  | .cons _ _ _ => false

def noSlash (s : String) : Bool := !(s.data.contains '/')

mutual

/-- A scalar is always well-formed; a sub-mapping must be non-empty and
recursively well-formed. -/
def wfVal {α : Type} : Json α → Bool
  | .scalar _ => true
  | .obj m => !(jIsNil m) && wfObj m

/-- Well-formed document level: keys non-empty, free of the separator,
distinct within the level, and values recursively well-formed. -/
def wfObj {α : Type} : JObj α → Bool
  | .nil => true
  | .cons k v t => (k != "") && noSlash k && !((jkeys t).contains k) && wfVal v && wfObj t

end

/-- The fold at the heart of `unflatten_json`, over already-decoded segment
paths. -/
def foldSet {α : Type} (d : Json α) (prs : List (List String × α)) : Except String (Json α) :=
  prs.foldlM (fun d p => setNested d p.1 p.2) d

/-! ## Basic JObj lemmas -/

theorem jappend_nil {α : Type} : (m : JObj α) → jappend m .nil = m
  | .nil => rfl
  | .cons k v t => by rw [jappend, jappend_nil t]

theorem jappend_assoc {α : Type} : (a : JObj α) → ∀ (b c : JObj α),
    jappend (jappend a b) c = jappend a (jappend b c)
  | .nil, _, _ => rfl
  | .cons k v t, b, c => by
      show JObj.cons k v (jappend (jappend t b) c) = JObj.cons k v (jappend t (jappend b c))
      rw [jappend_assoc t]

theorem jlookup_jappend_none {α : Type} : (a : JObj α) → ∀ (b : JObj α) (k : String),
    jlookup a k = none → jlookup (jappend a b) k = jlookup b k
  | .nil, _, _, _ => rfl
  | .cons k' v t, b, k, h => by
      by_cases hk : k' = k
      · simp [jlookup, hk] at h
      · simp only [jlookup, hk, if_false] at h
        show jlookup (JObj.cons k' v (jappend t b)) k = jlookup b k
        simp only [jlookup, hk, if_false]
        exact jlookup_jappend_none t b k h

theorem jset_of_none {α : Type} : (m : JObj α) → ∀ (k : String) (v : Json α),
    jlookup m k = none → jset m k v = jappend m (.cons k v .nil)
  | .nil, _, _, _ => rfl
  | .cons k' v' t, k, v, h => by
      by_cases hk : k' = k
      · simp [jlookup, hk] at h
      · simp only [jlookup, hk, if_false] at h
        simp only [jset, hk, if_false, jappend]
        rw [jset_of_none t k v h]

theorem jlookup_jset_self {α : Type} : (m : JObj α) → ∀ (k : String) (v : Json α),
    jlookup (jset m k v) k = some v
  | .nil, k, v => by simp [jset, jlookup]
  | .cons k' v' t, k, v => by
      by_cases hk : k' = k
      · simp [jset, hk, jlookup]
      · simp only [jset, hk, if_false, jlookup]
        exact jlookup_jset_self t k v

theorem jset_jset_self {α : Type} : (m : JObj α) → ∀ (k : String) (v w : Json α),
    jset (jset m k v) k w = jset m k w
  | .nil, k, v, w => by simp [jset]
  | .cons k' v' t, k, v, w => by
      by_cases hk : k' = k
      · simp [jset, hk]
      · simp only [jset, hk, if_false]
        rw [jset_jset_self t k v w]

theorem jkeys_jappend {α : Type} : (a : JObj α) → ∀ (b : JObj α),
    jkeys (jappend a b) = jkeys a ++ jkeys b
  | .nil, _ => rfl
  | .cons k v t, b => by
      show k :: jkeys (jappend t b) = k :: (jkeys t ++ jkeys b)
      rw [jkeys_jappend t]

theorem jlookup_none_of_not_mem {α : Type} : (m : JObj α) → ∀ (k : String),
    k ∉ jkeys m → jlookup m k = none
  | .nil, _, _ => rfl
  | .cons k' v t, k, h => by
      simp only [jkeys, List.mem_cons, not_or] at h
      simp only [jlookup, Ne.symm h.1, if_false]
      exact jlookup_none_of_not_mem t k h.2

/-! ## Splitting / joining lemmas -/

theorem splitList_no_slash : (a : List Char) → '/' ∉ a → splitList a = [a]
  | [], _ => rfl
  | c :: t, h => by
      simp only [List.mem_cons, not_or] at h
      simp only [splitList, Ne.symm h.1, if_false]
      rw [splitList_no_slash t h.2]

theorem splitList_append : (a : List Char) → ∀ (rest : List Char), '/' ∉ a →
    splitList (a ++ '/' :: rest) = a :: splitList rest
  | [], rest, _ => by simp [splitList]
  | c :: t, rest, h => by
      simp only [List.mem_cons, not_or] at h
      simp only [List.cons_append, splitList, Ne.symm h.1, if_false, List.append_eq]
      rw [splitList_append t rest h.2]

theorem joinSegs_cons_cons (s s' : String) (t : List String) :
    joinSegs (s :: s' :: t) = s ++ "/" ++ joinSegs (s' :: t) := rfl

theorem joinSegs_data_cons_cons (s s' : String) (t : List String) :
    (joinSegs (s :: s' :: t)).data = s.data ++ '/' :: (joinSegs (s' :: t)).data := by
  rw [joinSegs_cons_cons]
  show (s.data ++ "/".data) ++ (joinSegs (s' :: t)).data = _
  simp

theorem noSlash_not_mem {s : String} (h : noSlash s = true) : '/' ∉ s.data := by
  intro hm
  rw [noSlash, Bool.not_eq_true'] at h
  rw [List.contains, List.elem_iff.mpr hm] at h
  cases h

theorem splitSep_joinSegs : (segs : List String) → segs ≠ [] →
    (∀ s ∈ segs, noSlash s = true) → splitSep (joinSegs segs) = segs
  | [], h, _ => absurd rfl h
  | [s], _, hn => by
      have hs : '/' ∉ s.data := noSlash_not_mem (hn s (by simp))
      simp [splitSep, joinSegs, splitList_no_slash s.data hs]
  | s :: s' :: t, _, hn => by
      have hs : '/' ∉ s.data := noSlash_not_mem (hn s (by simp))
      have ih := splitSep_joinSegs (s' :: t) (by simp)
        (fun x hx => hn x (by simp [hx]))
      show ((splitList (joinSegs (s :: s' :: t)).data).map (fun l => (⟨l⟩ : String))) = _
      rw [joinSegs_data_cons_cons, splitList_append s.data ((joinSegs (s' :: t)).data) hs,
        List.map_cons]
      exact congrArg (List.cons s) ih

theorem joinSegs_ne_empty : (segs : List String) → segs ≠ [] →
    (∀ s ∈ segs, s ≠ "") → joinSegs segs ≠ ""
  | [], h, _ => absurd rfl h
  | [s], _, hn => by simpa [joinSegs] using hn s (by simp)
  | s :: s' :: t, _, hn => by
      rw [joinSegs_cons_cons]
      intro hcontra
      have hd : (s ++ "/" ++ joinSegs (s' :: t)).data = [] := by rw [hcontra]
      simp at hd

theorem joinSegs_append_single : (t : List String) → ∀ (s k : String),
    joinSegs (s :: t) ++ "/" ++ k = joinSegs (s :: (t ++ [k]))
  | [], _, _ => rfl
  | s' :: t', s, k => by
      have ih := joinSegs_append_single t' s' k
      show (s ++ "/" ++ joinSegs (s' :: t')) ++ "/" ++ k
        = s ++ "/" ++ joinSegs (s' :: (t' ++ [k]))
      rw [← ih]
      simp [String.append_assoc]

theorem childKey_joinSegs (segs : List String) (k : String)
    (hn : ∀ s ∈ segs, s ≠ "") :
    childKey (joinSegs segs) k = joinSegs (segs ++ [k]) := by
  cases segs with
  | nil => simp [childKey, joinSegs]
  | cons s t =>
      have hne : joinSegs (s :: t) ≠ "" := joinSegs_ne_empty (s :: t) (by simp) hn
      simp only [childKey, hne, if_false]
      exact joinSegs_append_single t s k

/-! ## More association-list lemmas -/

theorem aset_eq_append {β : Type} : (l : List (String × β)) → ∀ (k : String) (v : β),
    alookup l k = none → aset l k v = l ++ [(k, v)]
  | [], _, _, _ => rfl
  | p :: t, k, v, h => by
      by_cases hp : p.1 = k
      · simp [alookup, hp] at h
      · simp only [alookup, hp, if_false] at h
        cases p with
        | mk k' v' =>
            simp only [aset, hp, if_false, List.cons_append]
            rw [aset_eq_append t k v h]

theorem alookup_not_mem_keys {β : Type} : (l : List (String × β)) → ∀ (k : String),
    k ∉ l.map Prod.fst → alookup l k = none
  | [], _, _ => rfl
  | p :: t, k, h => by
      simp only [List.map_cons, List.mem_cons, not_or] at h
      have h1 : ¬ (p.1 = k) := fun hh => h.1 hh.symm
      simp only [alookup]
      rw [if_neg h1]
      exact alookup_not_mem_keys t k h.2

theorem alookup_append_left_none {β : Type} : (a : List (String × β)) → ∀ (b : List (String × β)) (k : String),
    alookup a k = none → alookup (a ++ b) k = alookup b k
  | [], _, _, _ => rfl
  | p :: t, b, k, h => by
      by_cases hp : p.1 = k
      · simp [alookup, hp] at h
      · simp only [alookup, hp, if_false] at h
        simp only [List.cons_append, alookup, hp, if_false]
        exact alookup_append_left_none t b k h

theorem alookup_append_none_of_not_mem {β : Type} (a b : List (String × β)) (k : String)
    (ha : alookup a k = none) (hb : k ∉ b.map Prod.fst) : alookup (a ++ b) k = none := by
  rw [alookup_append_left_none a b k ha]
  exact alookup_not_mem_keys b k hb

theorem updateAll_eq_append {β : Type} : (l : List (String × β)) → ∀ (items : List (String × β)),
    (∀ p ∈ l, alookup items p.1 = none) → (l.map Prod.fst).Pairwise (fun a b => a ≠ b) →
    updateAll items l = items ++ l
  | [], items, _, _ => by simp [updateAll]
  | p :: t, items, hfresh, hpw => by
      have hp : alookup items p.1 = none := hfresh p (by simp)
      rw [List.map_cons] at hpw
      have hpw' := List.pairwise_cons.mp hpw
      have hstep : aset items p.1 p.2 = items ++ [p] := by
        rw [aset_eq_append items p.1 p.2 hp]
      have hfresh' : ∀ q ∈ t, alookup (items ++ [p]) q.1 = none := by
        intro q hq
        have hne : p.1 ≠ q.1 := hpw'.1 q.1 (List.mem_map_of_mem Prod.fst hq)
        exact alookup_append_none (items) p.1 q.1 p.2 (hfresh q (by simp [hq])) hne
      show updateAll (aset items p.1 p.2) t = items ++ p :: t
      rw [hstep, updateAll_eq_append t (items ++ [p]) hfresh' hpw'.2]
      simp

/-! ## Well-formedness destructuring -/

theorem contains_false_iff {l : List String} {k : String} : (l.contains k = false) ↔ k ∉ l := by
  rw [← Bool.not_eq_true]
  exact not_congr List.elem_iff

theorem wfObj_cons_iff {α : Type} (k : String) (v : Json α) (t : JObj α) :
    wfObj (.cons k v t) = true ↔
      (k ≠ "" ∧ noSlash k = true ∧ k ∉ jkeys t ∧ wfVal v = true ∧ wfObj t = true) := by
  show ((k != "") && noSlash k && !((jkeys t).contains k) && wfVal v && wfObj t) = true ↔ _
  simp only [Bool.and_eq_true, bne_iff_ne, Bool.not_eq_true', contains_false_iff]
  tauto

theorem wfVal_obj_iff {α : Type} (m : JObj α) :
    wfVal (.obj m) = true ↔ (jIsNil m = false ∧ wfObj m = true) := by
  show (!(jIsNil m) && wfObj m) = true ↔ _
  simp [Bool.and_eq_true, Bool.not_eq_true']

theorem jIsNil_false_iff {α : Type} : (m : JObj α) → (jIsNil m = false ↔ m ≠ .nil)
  | .nil => by simp [jIsNil]
  | .cons k v t => by simp [jIsNil]

/-! ## Facts about `flatPairs` of well-formed documents -/

theorem flatPairs_wf {α : Type} : (m : JObj α) → wfObj m = true → ∀ p ∈ flatPairs m,
    p.1 ≠ [] ∧ ∀ s ∈ p.1, (s ≠ "" ∧ noSlash s = true)
  | .nil, _, p, hp => by simp [flatPairs] at hp
  | .cons k (.scalar a) t, hwf, p, hp => by
      obtain ⟨hk1, hk2, _, _, ht⟩ := (wfObj_cons_iff k _ t).mp hwf
      rw [flatPairs] at hp
      rcases List.mem_cons.mp hp with hp | hp
      · subst hp
        exact ⟨by simp, by intro s hs; simp at hs; subst hs; exact ⟨hk1, hk2⟩⟩
      · exact flatPairs_wf t ht p hp
  | .cons k (.obj m') t, hwf, p, hp => by
      obtain ⟨hk1, hk2, _, hv, ht⟩ := (wfObj_cons_iff k _ t).mp hwf
      obtain ⟨_, hwm'⟩ := (wfVal_obj_iff m').mp hv
      rw [flatPairs] at hp
      rcases List.mem_append.mp hp with hp | hp
      · obtain ⟨q, hq, hq2⟩ := List.mem_map.mp hp
        subst hq2
        obtain ⟨hq1, hq2⟩ := flatPairs_wf m' hwm' q hq
        refine ⟨by simp, ?_⟩
        intro s hs
        rcases List.mem_cons.mp hs with hs | hs
        · subst hs; exact ⟨hk1, hk2⟩
        · exact hq2 s hs
      · exact flatPairs_wf t ht p hp

theorem flatPairs_ne_nil {α : Type} : (m : JObj α) → wfObj m = true → m ≠ .nil →
    flatPairs m ≠ []
  | .nil, _, hne => absurd rfl hne
  | .cons k (.scalar a) t, _, _ => by simp [flatPairs]
  | .cons k (.obj m') t, hwf, _ => by
      obtain ⟨_, _, _, hv, _⟩ := (wfObj_cons_iff k _ t).mp hwf
      obtain ⟨hnil, hwm'⟩ := (wfVal_obj_iff m').mp hv
      have hm' : m' ≠ .nil := (jIsNil_false_iff m').mp hnil
      have := flatPairs_ne_nil m' hwm' hm'
      rw [flatPairs]
      intro hcontra
      rcases List.append_eq_nil.mp hcontra with ⟨h1, _⟩
      exact this (List.map_eq_nil_iff.mp h1)

/-! ## `setNested` structure lemmas -/

theorem jset_eq_self_of_lookup {α : Type} : (m : JObj α) → ∀ (k : String) (v : Json α),
    jlookup m k = some v → jset m k v = m
  | .nil, k, v, h => by simp [jlookup] at h
  | .cons k' v' t, k, v, h => by
      by_cases hk : k' = k
      · subst hk
        simp [jlookup] at h
        simp [jset, h]
      · simp only [jlookup, hk, if_false] at h
        simp only [jset, hk, if_false]
        rw [jset_eq_self_of_lookup t k v h]

theorem setNested_nil_ok {α : Type} : (p : List String) → ∀ (v : α), p ≠ [] →
    ∃ u, setNested (Json.obj .nil) p v = .ok (Json.obj u)
  | [], _, h => absurd rfl h
  | [k], v, _ => ⟨jset .nil k (.scalar v), rfl⟩
  | k :: k' :: rest, v, _ => by
      obtain ⟨u', hu'⟩ := setNested_nil_ok (k' :: rest) v (by simp)
      refine ⟨jset .nil k (.obj u'), ?_⟩
      show (match jlookup (.nil : JObj α) k with
            | some d => setNested d (k' :: rest) v
            | none => setNested (Json.obj .nil) (k' :: rest) v).map
          (fun r => Json.obj (jset .nil k r)) = _
      rw [show jlookup (.nil : JObj α) k = none from rfl]
      rw [hu']
      rfl

theorem setNested_ok_obj {α : Type} (m : JObj α) (p : List String) (v : α) (r : Json α)
    (h : setNested (Json.obj m) p v = .ok r) : ∃ u, r = Json.obj u := by
  match p with
  | [] => simp [setNested] at h
  | [k] =>
      simp only [setNested, Except.ok.injEq] at h
      exact ⟨_, h.symm⟩
  | k :: k' :: rest =>
      rw [setNested] at h
      cases hinner : (match jlookup m k with
            | some d => setNested d (k' :: rest) v
            | none => setNested (Json.obj .nil) (k' :: rest) v) with
      | error e => rw [hinner] at h; cases h
      | ok rv =>
          rw [hinner] at h
          simp only [Except.map, Except.ok.injEq] at h
          exact ⟨_, h.symm⟩

/-! ## `foldSet` unfolding -/

theorem foldSet_nil {α : Type} (d : Json α) : foldSet d [] = .ok d := rfl

theorem foldSet_cons {α : Type} (d : Json α) (x : List String × α) (l : List (List String × α)) :
    foldSet d (x :: l) = setNested d x.1 x.2 >>= fun d' => foldSet d' l := rfl

theorem foldSet_append {α : Type} : (l1 : List (List String × α)) → ∀ (l2 : List (List String × α)) (d : Json α),
    foldSet d (l1 ++ l2) = foldSet d l1 >>= fun d' => foldSet d' l2
  | [], l2, d => rfl
  | x :: t, l2, d => by
      rw [List.cons_append, foldSet_cons, foldSet_cons]
      cases hstep : setNested d x.1 x.2 with
      | error e => rfl
      | ok d' =>
          show foldSet d' (t ++ l2) = (Except.ok d' >>= fun d'' => foldSet d'' t) >>= _
          rw [show (Except.ok d' >>= fun d'' => foldSet d'' t) = foldSet d' t from rfl]
          exact foldSet_append t l2 d'

/-! ## Flat keys as joined segment paths -/

theorem flatKV_join {α : Type} : (m : JObj α) → ∀ (segs : List String), wfObj m = true →
    (∀ s ∈ segs, s ≠ "") →
    flatKV m (joinSegs segs) = (flatPairs m).map (fun p => (joinSegs (segs ++ p.1), p.2))
  | .nil, _, _, _ => rfl
  | .cons k (.scalar a) t, segs, hwf, hs => by
      obtain ⟨hk1, _, _, _, ht⟩ := (wfObj_cons_iff k _ t).mp hwf
      rw [flatKV, flatPairs, childKey_joinSegs segs k hs, List.map_cons]
      rw [flatKV_join t segs ht hs]
  | .cons k (.obj m') t, segs, hwf, hs => by
      obtain ⟨hk1, _, _, hv, ht⟩ := (wfObj_cons_iff k _ t).mp hwf
      obtain ⟨_, hwm'⟩ := (wfVal_obj_iff m').mp hv
      have hs' : ∀ s ∈ segs ++ [k], s ≠ "" := by
        intro s hmem
        rcases List.mem_append.mp hmem with hmem | hmem
        · exact hs s hmem
        · simp at hmem; subst hmem; exact hk1
      rw [flatKV, flatPairs, childKey_joinSegs segs k hs,
        flatKV_join m' (segs ++ [k]) hwm' hs', flatKV_join t segs ht hs,
        List.map_append, List.map_map]
      congr 1
      apply List.map_congr_left
      intro p _
      simp

/-! ## The minimal condition under which flat keys are joined paths

`flatten_json` builds a child key with the falsy `if parent_key` check, so
the only way a computed flat key can differ from the `/`-joined nested path
is a top-level empty-string key whose value is a sub-mapping: its empty
segment is dropped.  `wfTop` rules out exactly that case. -/

/-- No top-level key is the empty string with a sub-mapping value. -/
def wfTop {α : Type} : JObj α → Bool
  | .nil => true
  | .cons k (.obj _) t => (k != "") && wfTop t
  | .cons _ (.scalar _) t => wfTop t

theorem wfTop_cons_obj_iff {α : Type} (k : String) (m' t : JObj α) :
    wfTop (.cons k (.obj m') t) = true ↔ (k ≠ "" ∧ wfTop t = true) := by
  show ((k != "") && wfTop t) = true ↔ _
  simp [Bool.and_eq_true, bne_iff_ne]

theorem wfTop_cons_scalar {α : Type} (k : String) (a : α) (t : JObj α) :
    wfTop (.cons k (.scalar a) t) = wfTop t := rfl

theorem wfObj_imp_wfTop {α : Type} : (m : JObj α) → wfObj m = true → wfTop m = true
  | .nil, _ => rfl
  | .cons k (.scalar a) t, h => by
      obtain ⟨_, _, _, _, ht⟩ := (wfObj_cons_iff k _ t).mp h
      rw [wfTop_cons_scalar]
      exact wfObj_imp_wfTop t ht
  | .cons k (.obj m') t, h => by
      obtain ⟨hk1, _, _, _, ht⟩ := (wfObj_cons_iff k _ t).mp h
      rw [wfTop_cons_obj_iff]
      exact ⟨hk1, wfObj_imp_wfTop t ht⟩

theorem joinSegs_cons_cons_ne_empty (s s' : String) (t : List String) :
    joinSegs (s :: s' :: t) ≠ "" := by
  intro h
  have hd := congrArg String.data h
  rw [joinSegs_data_cons_cons] at hd
  simp at hd

theorem childKey_joinSegs_of_ne (segs : List String) (k : String)
    (h : segs ≠ [] → joinSegs segs ≠ "") :
    childKey (joinSegs segs) k = joinSegs (segs ++ [k]) := by
  cases segs with
  | nil => simp [childKey, joinSegs]
  | cons s t =>
      have hne : joinSegs (s :: t) ≠ "" := h (by simp)
      simp only [childKey, hne, if_false]
      exact joinSegs_append_single t s k

theorem flatKV_join_min {α : Type} : (m : JObj α) → ∀ (segs : List String),
    (segs = [] → wfTop m = true) → (segs ≠ [] → joinSegs segs ≠ "") →
    flatKV m (joinSegs segs) = (flatPairs m).map (fun p => (joinSegs (segs ++ p.1), p.2))
  | .nil, _, _, _ => rfl
  | .cons k (.scalar a) t, segs, htop, hne => by
      have htop' : segs = [] → wfTop t = true := by
        intro h
        have h2 := htop h
        rwa [wfTop_cons_scalar] at h2
      rw [flatKV, flatPairs, childKey_joinSegs_of_ne segs k hne,
        flatKV_join_min t segs htop' hne, List.map_cons]
  | .cons k (.obj m') t, segs, htop, hne => by
      have hck : childKey (joinSegs segs) k = joinSegs (segs ++ [k]) :=
        childKey_joinSegs_of_ne segs k hne
      have hne' : (segs ++ [k]) ≠ [] → joinSegs (segs ++ [k]) ≠ "" := by
        intro _
        cases segs with
        | nil =>
            have hw := htop rfl
            rw [wfTop_cons_obj_iff] at hw
            simpa [joinSegs] using hw.1
        | cons s t' =>
            obtain ⟨s2, t2, hsh⟩ : ∃ s2 t2, t' ++ [k] = s2 :: t2 := by
              cases t' with
              | nil => exact ⟨k, [], rfl⟩
              | cons a b => exact ⟨a, b ++ [k], by simp⟩
            show joinSegs ((s :: t') ++ [k]) ≠ ""
            rw [List.cons_append, hsh]
            exact joinSegs_cons_cons_ne_empty s s2 t2
      have htop' : segs = [] → wfTop t = true := by
        intro h
        have h2 := htop h
        rw [wfTop_cons_obj_iff] at h2
        exact h2.2
      rw [flatKV, flatPairs, hck,
        flatKV_join_min m' (segs ++ [k]) (fun h => absurd h (by simp)) hne',
        flatKV_join_min t segs htop' hne, List.map_append, List.map_map]
      congr 1
      apply List.map_congr_left
      intro p _
      simp

/-! ## Unfolding equations for `flattenAux`, `applyCalls`, `flatKV` -/

theorem flattenAux_cons_scalar {α : Type} (k : String) (a : α) (t : JObj α)
    (st : MapperState) (parent : String) (items : List (String × α)) :
    flattenAux (.cons k (.scalar a) t) st parent items
      = flattenAux t (add_mapping st (hashName (childKey parent k)) (childKey parent k)) parent
          (aset items (hashName (childKey parent k)) a) := rfl

theorem flattenAux_cons_obj {α : Type} (k : String) (m' t : JObj α)
    (st : MapperState) (parent : String) (items : List (String × α)) :
    flattenAux (.cons k (.obj m') t) st parent items
      = flattenAux t (flattenAux m' st (childKey parent k) []).2 parent
          (updateAll items (flattenAux m' st (childKey parent k) []).1) := rfl

theorem applyCalls_cons (s : MapperState) (c : String × String) (t : List (String × String)) :
    applyCalls s (c :: t) = applyCalls (add_mapping s c.1 c.2) t := rfl

theorem applyCalls_append (s : MapperState) (l1 l2 : List (String × String)) :
    applyCalls s (l1 ++ l2) = applyCalls (applyCalls s l1) l2 := by
  simp [applyCalls, List.foldl_append]

theorem flatKV_cons_scalar {α : Type} (k : String) (a : α) (t : JObj α) (parent : String) :
    flatKV (.cons k (.scalar a) t) parent = (childKey parent k, a) :: flatKV t parent := rfl

theorem flatKV_cons_obj {α : Type} (k : String) (m' t : JObj α) (parent : String) :
    flatKV (.cons k (.obj m') t) parent
      = flatKV m' (childKey parent k) ++ flatKV t parent := rfl

theorem flatKeys_cons_scalar {α : Type} (k : String) (a : α) (t : JObj α) (parent : String) :
    flatKeys (.cons k (.scalar a) t) parent = childKey parent k :: flatKeys t parent := rfl

theorem flatKeys_cons_obj {α : Type} (k : String) (m' t : JObj α) (parent : String) :
    flatKeys (.cons k (.obj m') t) parent
      = flatKeys m' (childKey parent k) ++ flatKeys t parent := by
  rw [flatKeys, flatKV_cons_obj, List.map_append]
  rfl

/-! ## The flattening characterization -/

theorem flattenAux_eq {α : Type} : (m : JObj α) → ∀ (st : MapperState) (parent : String) (items : List (String × α)),
    (flatKeys m parent).Pairwise (fun a b => hashName a ≠ hashName b) →
    (∀ fk ∈ flatKeys m parent, alookup items (hashName fk) = none) →
    flattenAux m st parent items =
      (items ++ (flatKV m parent).map (fun p => (hashName p.1, p.2)),
       applyCalls st ((flatKeys m parent).map (fun fk => (hashName fk, fk))))
  | .nil, st, parent, items, _, _ => by
      show (items, st) = _
      simp [flatKV, flatKeys, applyCalls]
  | .cons k (.scalar a) t, st, parent, items, hpw, hfresh => by
      have hpw' : ((childKey parent k) :: flatKeys t parent).Pairwise
          (fun a b => hashName a ≠ hashName b) := by
        rw [← flatKeys_cons_scalar (a := a)]
        exact hpw
      have hfreshc : ∀ fk ∈ (childKey parent k) :: flatKeys t parent,
          alookup items (hashName fk) = none := by
        rw [← flatKeys_cons_scalar (a := a)]
        exact hfresh
      have hpwc := List.pairwise_cons.mp hpw'
      have hck : alookup items (hashName (childKey parent k)) = none := hfreshc _ (by simp)
      have hstep : aset items (hashName (childKey parent k)) a
          = items ++ [(hashName (childKey parent k), a)] := aset_eq_append _ _ _ hck
      have hfresh2 : ∀ fk ∈ flatKeys t parent,
          alookup (items ++ [(hashName (childKey parent k), a)]) (hashName fk) = none := by
        intro fk hfk
        exact alookup_append_none items _ _ _ (hfreshc fk (by simp [hfk])) (hpwc.1 fk hfk)
      have IH := flattenAux_eq t
        (add_mapping st (hashName (childKey parent k)) (childKey parent k)) parent
        (items ++ [(hashName (childKey parent k), a)]) hpwc.2 hfresh2
      rw [flattenAux_cons_scalar, hstep, IH, List.append_assoc]
      rfl
  | .cons k (.obj m') t, st, parent, items, hpw, hfresh => by
      have hpw' : (flatKeys m' (childKey parent k) ++ flatKeys t parent).Pairwise
          (fun a b => hashName a ≠ hashName b) := by
        rw [← flatKeys_cons_obj]
        exact hpw
      have hfresh' : ∀ fk ∈ flatKeys m' (childKey parent k) ++ flatKeys t parent,
          alookup items (hashName fk) = none := by
        rw [← flatKeys_cons_obj]
        exact hfresh
      obtain ⟨hpw1, hpw2, hcross⟩ := List.pairwise_append.mp hpw'
      have IH1 := flattenAux_eq m' st (childKey parent k) [] hpw1 (fun _ _ => rfl)
      have hsub1 : (flattenAux m' st (childKey parent k) []).1
          = (flatKV m' (childKey parent k)).map (fun p => (hashName p.1, p.2)) := by
        rw [IH1]
        simp
      have hsub2 : (flattenAux m' st (childKey parent k) []).2
          = applyCalls st ((flatKeys m' (childKey parent k)).map (fun fk => (hashName fk, fk))) := by
        rw [IH1]
      have hkeys1 : ((flatKV m' (childKey parent k)).map (fun p => (hashName p.1, p.2))).map Prod.fst
          = (flatKV m' (childKey parent k)).map (fun p => hashName p.1) := by
        rw [List.map_map]
        rfl
      have hupd : updateAll items ((flatKV m' (childKey parent k)).map (fun p => (hashName p.1, p.2)))
          = items ++ (flatKV m' (childKey parent k)).map (fun p => (hashName p.1, p.2)) := by
        apply updateAll_eq_append
        · intro p hp
          obtain ⟨q, hq, hpq⟩ := List.mem_map.mp hp
          rw [← hpq]
          exact hfresh' (q.1) (List.mem_append_left _
            (List.mem_map_of_mem Prod.fst hq))
        · rw [hkeys1, List.pairwise_map]
          have h0 := hpw1
          rw [flatKeys, List.pairwise_map] at h0
          exact h0
      have hfresh2 : ∀ fk ∈ flatKeys t parent,
          alookup (items ++ (flatKV m' (childKey parent k)).map (fun p => (hashName p.1, p.2)))
            (hashName fk) = none := by
        intro fk hfk
        apply alookup_append_none_of_not_mem
        · exact hfresh' fk (List.mem_append_right _ hfk)
        · rw [hkeys1]
          intro hmem
          obtain ⟨q, hq, hqeq⟩ := List.mem_map.mp hmem
          exact hcross (q.1) (List.mem_map_of_mem Prod.fst hq) fk hfk hqeq
      have IH2 := flattenAux_eq t
        (applyCalls st ((flatKeys m' (childKey parent k)).map (fun fk => (hashName fk, fk)))) parent
        (items ++ (flatKV m' (childKey parent k)).map (fun p => (hashName p.1, p.2))) hpw2 hfresh2
      rw [flattenAux_cons_obj, hsub1, hsub2, hupd, IH2, List.append_assoc]
      rw [flatKV_cons_obj, flatKeys_cons_obj, List.map_append, List.map_append,
        applyCalls_append]

/-! ## Looking up the recorded flat keys -/

theorem applyCalls_lookup_of_pairwise : ∀ (fks : List String) (st : MapperState) (fk : String),
    fk ∈ fks → fks.Pairwise (fun a b => hashName a ≠ hashName b) →
    (∀ f ∈ fks, alookup st.mapping (hashName f) = none) →
    alookup (applyCalls st (fks.map (fun f => (hashName f, f)))).mapping (hashName fk) = some fk := by
  intro fks
  induction fks with
  | nil => intro st fk hmem _ _; simp at hmem
  | cons f fs ih =>
      intro st fk hmem hpw hfresh
      rw [List.map_cons, applyCalls_cons]
      have hpw' := List.pairwise_cons.mp hpw
      rcases List.mem_cons.mp hmem with hfk | hfk
      · subst hfk
        have hself : alookup (add_mapping st (hashName fk) fk).mapping (hashName fk) = some fk :=
          add_mapping_cache_self st _ _ (hfresh fk (by simp))
        exact applyCalls_cache_stable _ _ _ _ hself
      · have hfresh2 : ∀ g ∈ fs,
            alookup (add_mapping st (hashName f) f).mapping (hashName g) = none := by
          intro g hg
          exact add_mapping_cache_none st _ _ _ (hfresh g (by simp [hg])) (hpw'.1 g hg)
        exact ih _ fk hfk hpw'.2 hfresh2

/-! ## Rebuilding a document from its flat pairs -/

theorem foldSet_prefixed {α : Type} : ∀ (prs : List (List String × α)) (accL u : JObj α) (k : String),
    (∀ p ∈ prs, p.1 ≠ []) → jlookup accL k = some (Json.obj u) →
    foldSet (Json.obj accL) (prs.map (fun p => (k :: p.1, p.2)))
      = (foldSet (Json.obj u) prs).map (fun r => Json.obj (jset accL k r)) := by
  intro prs
  induction prs with
  | nil =>
      intro accL u k _ hlk
      rw [List.map_nil, foldSet_nil, foldSet_nil]
      show Except.ok (Json.obj accL) = Except.ok (Json.obj (jset accL k (Json.obj u)))
      rw [jset_eq_self_of_lookup accL k _ hlk]
  | cons p t ih =>
      intro accL u k hne hlk
      rw [List.map_cons, foldSet_cons, foldSet_cons]
      obtain ⟨k', rest, hrest⟩ : ∃ k' rest, p.1 = k' :: rest := by
        cases hq : p.1 with
        | nil => exact absurd hq (hne p (by simp))
        | cons a b => exact ⟨a, b, rfl⟩
      rw [hrest]
      have hstepL : setNested (Json.obj accL) (k :: k' :: rest) p.2
          = (setNested (Json.obj u) (k' :: rest) p.2).map (fun r => Json.obj (jset accL k r)) := by
        show (match jlookup accL k with
              | some d => setNested d (k' :: rest) p.2
              | none => setNested (Json.obj .nil) (k' :: rest) p.2).map
            (fun r => Json.obj (jset accL k r)) = _
        rw [hlk]
      rw [hstepL]
      cases hstep : setNested (Json.obj u) (k' :: rest) p.2 with
      | error e => rfl
      | ok r1 =>
          obtain ⟨u1, hu1⟩ := setNested_ok_obj u (k' :: rest) p.2 r1 hstep
          subst hu1
          show foldSet (Json.obj (jset accL k (Json.obj u1))) (t.map (fun p => (k :: p.1, p.2)))
            = (foldSet (Json.obj u1) t).map (fun r => Json.obj (jset accL k r))
          have hlk1 : jlookup (jset accL k (Json.obj u1)) k = some (Json.obj u1) :=
            jlookup_jset_self accL k _
          rw [ih (jset accL k (Json.obj u1)) u1 k (fun q hq => hne q (by simp [hq])) hlk1]
          have hfun : (fun r => Json.obj (jset (jset accL k (Json.obj u1)) k r))
              = (fun r => Json.obj (jset accL k r)) :=
            funext (fun r => by rw [jset_jset_self])
          rw [hfun]

theorem foldSet_flatPairs {α : Type} : (m : JObj α) → ∀ (accL : JObj α), wfObj m = true →
    (∀ k ∈ jkeys m, jlookup accL k = none) →
    foldSet (Json.obj accL) (flatPairs m) = .ok (Json.obj (jappend accL m))
  | .nil, accL, _, _ => by
      rw [flatPairs, foldSet_nil, jappend_nil]
  | .cons k (.scalar a) t, accL, hwf, hdisj => by
      obtain ⟨_, _, hk3, _, ht⟩ := (wfObj_cons_iff k _ t).mp hwf
      have hlkk : jlookup accL k = none := hdisj k (by simp [jkeys])
      rw [flatPairs, foldSet_cons]
      have hstep : setNested (Json.obj accL) [k] a
          = .ok (Json.obj (jset accL k (.scalar a))) := rfl
      rw [hstep]
      show foldSet (Json.obj (jset accL k (.scalar a))) (flatPairs t) = _
      rw [jset_of_none accL k _ hlkk]
      have hdisj' : ∀ k' ∈ jkeys t,
          jlookup (jappend accL (.cons k (.scalar a) .nil)) k' = none := by
        intro k' hk'
        have hne : ¬ (k = k') := fun hh => hk3 (hh ▸ hk')
        rw [jlookup_jappend_none accL _ k' (hdisj k' (by simp [jkeys, hk']))]
        simp [jlookup, hne]
      rw [foldSet_flatPairs t (jappend accL (.cons k (.scalar a) .nil)) ht hdisj']
      rw [jappend_assoc]
      rfl
  | .cons k (.obj m') t, accL, hwf, hdisj => by
      obtain ⟨_, _, hk3, hv, ht⟩ := (wfObj_cons_iff k _ t).mp hwf
      obtain ⟨hnil, hwm'⟩ := (wfVal_obj_iff m').mp hv
      have hm' : m' ≠ .nil := (jIsNil_false_iff m').mp hnil
      have hlkk : jlookup accL k = none := hdisj k (by simp [jkeys])
      have hwfp := flatPairs_wf m' hwm'
      rw [flatPairs, foldSet_append]
      -- the sub-document's own flat pairs are non-empty
      obtain ⟨p0, rest, hsplit⟩ : ∃ p0 rest, flatPairs m' = p0 :: rest := by
        cases hq : flatPairs m' with
        | nil => exact absurd hq (flatPairs_ne_nil m' hwm' hm')
        | cons a b => exact ⟨a, b, rfl⟩
      obtain ⟨k0, r0, hp0⟩ : ∃ k0 r0, p0.1 = k0 :: r0 := by
        cases hq : p0.1 with
        | nil => exact absurd hq (hwfp p0 (by rw [hsplit]; simp)).1
        | cons a b => exact ⟨a, b, rfl⟩
      obtain ⟨w0, hw0⟩ := setNested_nil_ok p0.1 p0.2 (by rw [hp0]; simp)
      -- inner rebuild of the sub-document from the empty object
      have hinner := foldSet_flatPairs m' .nil hwm' (fun _ _ => rfl)
      rw [hsplit, foldSet_cons, hw0] at hinner
      have hrest : foldSet (Json.obj w0) rest = .ok (Json.obj m') := by
        have : (Except.ok (Json.obj w0) >>= fun d' => foldSet d' rest)
            = .ok (Json.obj (jappend .nil m')) := hinner
        simpa using this
      -- first group: the k-prefixed pairs
      have hgroup : foldSet (Json.obj accL) ((flatPairs m').map (fun p => (k :: p.1, p.2)))
          = .ok (Json.obj (jappend accL (.cons k (.obj m') .nil))) := by
        rw [hsplit, List.map_cons, foldSet_cons]
        have hstep1 : setNested (Json.obj accL) (k :: p0.1) p0.2
            = .ok (Json.obj (jset accL k (Json.obj w0))) := by
          rw [hp0]
          show (match jlookup accL k with
                | some d => setNested d (k0 :: r0) p0.2
                | none => setNested (Json.obj .nil) (k0 :: r0) p0.2).map
              (fun r => Json.obj (jset accL k r)) = _
          rw [hlkk, ← hp0, hw0]
          rfl
        rw [hstep1]
        show foldSet (Json.obj (jset accL k (Json.obj w0))) (rest.map (fun p => (k :: p.1, p.2))) = _
        have hlk1 : jlookup (jset accL k (Json.obj w0)) k = some (Json.obj w0) :=
          jlookup_jset_self accL k _
        rw [foldSet_prefixed rest (jset accL k (Json.obj w0)) w0 k
          (fun q hq => (hwfp q (by rw [hsplit]; simp [hq])).1) hlk1]
        rw [hrest]
        show Except.ok (Json.obj (jset (jset accL k (Json.obj w0)) k (Json.obj m'))) = _
        rw [jset_jset_self, jset_of_none accL k _ hlkk]
      rw [hgroup]
      show foldSet (Json.obj (jappend accL (.cons k (.obj m') .nil))) (flatPairs t) = _
      have hdisj' : ∀ k' ∈ jkeys t,
          jlookup (jappend accL (.cons k (.obj m') .nil)) k' = none := by
        intro k' hk'
        have hne : ¬ (k = k') := fun hh => hk3 (hh ▸ hk')
        rw [jlookup_jappend_none accL _ k' (hdisj k' (by simp [jkeys, hk']))]
        simp [jlookup, hne]
      rw [foldSet_flatPairs t (jappend accL (.cons k (.obj m') .nil)) ht hdisj']
      rw [jappend_assoc]
      rfl

/-! ## Bridging `buildRow` to `foldSet` -/

theorem buildRow_eq_foldSet {α : Type} : ∀ (prs : List (List String × α)) (st : MapperState)
    (enc : List String → String) (d : Json α),
    (∀ p ∈ prs, splitSep (get_original_name st (enc p.1)) = p.1) →
    List.foldlM (fun d (p : String × α) => setNested d (splitSep (get_original_name st p.1)) p.2) d
        (prs.map (fun p => (enc p.1, p.2)))
      = foldSet d prs := by
  intro prs
  induction prs with
  | nil => intro st enc d _; rfl
  | cons p t ih =>
      intro st enc d hdec
      rw [List.map_cons]
      show setNested d (splitSep (get_original_name st (enc p.1))) p.2 >>= _ = _
      rw [hdec p (by simp), foldSet_cons]
      cases hstep : setNested d p.1 p.2 with
      | error e => rfl
      | ok d' => exact ih st enc d' (fun q hq => hdec q (by simp [hq]))

/-! ## Top-level flattening facts shared by claims C1 and C10 -/

theorem flatten_top_items {α : Type} (D : JObj α) (hwt : wfTop D = true)
    (hpw : (flatKeys D "").Pairwise (fun a b => hashName a ≠ hashName b)) :
    (flatten_json D (load_mappings [])).1
      = (flatPairs D).map (fun p => (hashName (joinSegs p.1), p.2)) := by
  have hflat := flattenAux_eq D (load_mappings []) "" [] hpw (fun _ _ => rfl)
  have hkv : flatKV D "" = (flatPairs D).map (fun p => (joinSegs p.1, p.2)) := by
    have h0 := flatKV_join_min D [] (fun _ => hwt) (fun h => absurd rfl h)
    simpa [joinSegs] using h0
  show (flattenAux D (load_mappings []) "" []).1 = _
  rw [hflat]
  show (flatKV D "").map (fun p => (hashName p.1, p.2)) = _
  rw [hkv, List.map_map]
  rfl

theorem flatten_top_state {α : Type} (D : JObj α)
    (hpw : (flatKeys D "").Pairwise (fun a b => hashName a ≠ hashName b)) :
    (flatten_json D (load_mappings [])).2
      = applyCalls (load_mappings []) ((flatKeys D "").map (fun fk => (hashName fk, fk))) := by
  have hflat := flattenAux_eq D (load_mappings []) "" [] hpw (fun _ _ => rfl)
  show (flattenAux D (load_mappings []) "" []).2 = _
  rw [hflat]

theorem flatten_top_keys {α : Type} (D : JObj α) (hwt : wfTop D = true) :
    flatKeys D "" = (flatPairs D).map (fun p => joinSegs p.1) := by
  have hkv : flatKV D "" = (flatPairs D).map (fun p => (joinSegs p.1, p.2)) := by
    have h0 := flatKV_join_min D [] (fun _ => hwt) (fun h => absurd rfl h)
    simpa [joinSegs] using h0
  rw [flatKeys, hkv, List.map_map]
  rfl

theorem flatten_top_lookup {α : Type} (D : JObj α) (hwt : wfTop D = true)
    (hpw : (flatKeys D "").Pairwise (fun a b => hashName a ≠ hashName b)) :
    ∀ p ∈ flatPairs D,
      get_original_name (flatten_json D (load_mappings [])).2 (hashName (joinSegs p.1))
        = joinSegs p.1 := by
  intro p hp
  have hmem : joinSegs p.1 ∈ flatKeys D "" := by
    rw [flatten_top_keys D hwt]
    exact List.mem_map_of_mem _ hp
  have hl := applyCalls_lookup_of_pairwise (flatKeys D "") (load_mappings [])
    (joinSegs p.1) hmem hpw (fun _ _ => rfl)
  rw [flatten_top_state D hpw, get_original_name, hl]
  rfl

/-! ## Claim C1 -/

/-- C1 (amended): for a document whose keys are non-empty, free of the `/`
separator, and distinct within each level, whose sub-mappings are all
non-empty, and whose flat keys have pairwise distinct column identifiers,
unflattening the single-row list containing its flattening returns exactly
the one-element list with the original document. -/
theorem c1_round_trip_amended {α : Type} :
    ∀ (D : JObj α), wfObj D = true →
      (flatKeys D "").Pairwise (fun a b => hashName a ≠ hashName b) →
      unflatten_json [(flatten_json D (load_mappings [])).1]
          (flatten_json D (load_mappings [])).2
        = .ok [Json.obj D] := by
  intro D hwf hpw
  have hwt : wfTop D = true := wfObj_imp_wfTop D hwf
  have hwfp := flatPairs_wf D hwf
  have hdec : ∀ p ∈ flatPairs D,
      splitSep (get_original_name (flatten_json D (load_mappings [])).2
        ((fun segs => hashName (joinSegs segs)) p.1)) = p.1 := by
    intro p hp
    show splitSep (get_original_name (flatten_json D (load_mappings [])).2
      (hashName (joinSegs p.1))) = p.1
    rw [flatten_top_lookup D hwt hpw p hp]
    exact splitSep_joinSegs p.1 (hwfp p hp).1 (fun s hs => ((hwfp p hp).2 s hs).2)
  have hb : buildRow (flatten_json D (load_mappings [])).2
      ((flatPairs D).map (fun p => ((fun segs => hashName (joinSegs segs)) p.1, p.2)))
      = foldSet (Json.obj .nil) (flatPairs D) :=
    buildRow_eq_foldSet (flatPairs D) (flatten_json D (load_mappings [])).2
      (fun segs => hashName (joinSegs segs)) (Json.obj .nil) hdec
  have hbuild : buildRow (flatten_json D (load_mappings [])).2
      (flatten_json D (load_mappings [])).1 = .ok (Json.obj D) := by
    rw [flatten_top_items D hwt hpw]
    rw [hb]
    exact foldSet_flatPairs D .nil hwf (fun _ _ => rfl)
  show ([(flatten_json D (load_mappings [])).1]).mapM
      (buildRow (flatten_json D (load_mappings [])).2) = _
  rw [List.mapM_cons, hbuild, List.mapM_nil]
  rfl

/-- Counterexample for C1 as frozen: the document mapping `a` to an empty
sub-mapping has no flat keys at all — its flat keys are trivially pairwise
distinct and collision-free — yet flattening erases it and unflattening
returns the empty document instead. -/
theorem c1_round_trip_counterexample :
    (flatKeys (α := Nat) (.cons "a" (.obj .nil) .nil) "").Pairwise (fun a b => a ≠ b) ∧
    (flatKeys (α := Nat) (.cons "a" (.obj .nil) .nil) "").Pairwise
      (fun a b => hashName a ≠ hashName b) ∧
    unflatten_json [(flatten_json (α := Nat) (.cons "a" (.obj .nil) .nil) (load_mappings [])).1]
        (flatten_json (α := Nat) (.cons "a" (.obj .nil) .nil) (load_mappings [])).2
      ≠ .ok [Json.obj (.cons "a" (.obj .nil) .nil)] := by
  have hke : flatKeys (α := Nat) (.cons "a" (.obj .nil) .nil) "" = [] := rfl
  refine ⟨by rw [hke]; exact List.Pairwise.nil, by rw [hke]; exact List.Pairwise.nil, ?_⟩
  intro hcontra
  have heval : unflatten_json
      [(flatten_json (α := Nat) (.cons "a" (.obj .nil) .nil) (load_mappings [])).1]
      (flatten_json (α := Nat) (.cons "a" (.obj .nil) .nil) (load_mappings [])).2
      = .ok [Json.obj .nil] := rfl
  rw [heval] at hcontra
  injection hcontra with h1
  injection h1 with h2 h3
  injection h2 with h4
  exact JObj.noConfusion h4

/-- Witness for C1: a concrete two-level document round-trips through
`flatten_json` and `unflatten_json`. -/
theorem c1_round_trip_amended_witness :
    unflatten_json
      [(flatten_json (α := Nat) (.cons "a" (.obj (.cons "b" (.scalar 7) .nil)) .nil)
        (load_mappings [])).1]
      (flatten_json (α := Nat) (.cons "a" (.obj (.cons "b" (.scalar 7) .nil)) .nil)
        (load_mappings [])).2
      = .ok [Json.obj (.cons "a" (.obj (.cons "b" (.scalar 7) .nil)) .nil)] :=
  c1_round_trip_amended _ (by decide)
    (by rw [show flatKeys (α := Nat) (.cons "a" (.obj (.cons "b" (.scalar 7) .nil)) .nil) ""
          = ["a/b"] from rfl]
        simp)

/-! ## Claim C10 -/

/-- C10 (amended): after flattening, from a fresh store, a document none of
whose top-level empty-string keys maps to a sub-mapping, with non-colliding
digests (the spec's standing assumption), every column identifier in the
result is the digest of the `/`-joined nested path of one of the document's
scalars, and the recorded mapping decodes it back to exactly that path —
never to the fallback identifier-as-leaf-key. -/
theorem c10_flatten_records_paths {α : Type} :
    ∀ (D : JObj α), wfTop D = true →
      (flatKeys D "").Pairwise (fun a b => hashName a ≠ hashName b) →
      ∀ h, h ∈ (flatten_json D (load_mappings [])).1.map Prod.fst →
        ∃ p, p ∈ flatPairs D ∧ h = hashName (joinSegs p.1) ∧
          get_original_name (flatten_json D (load_mappings [])).2 h = joinSegs p.1 := by
  intro D hwt hpw h hmem
  rw [flatten_top_items D hwt hpw, List.map_map] at hmem
  obtain ⟨p, hp, heq⟩ := List.mem_map.mp hmem
  refine ⟨p, hp, ?_, ?_⟩
  · exact heq.symm
  · show get_original_name (flatten_json D (load_mappings [])).2 h = joinSegs p.1
    have heq' : h = hashName (joinSegs p.1) := heq.symm
    rw [heq']
    exact flatten_top_lookup D hwt hpw p hp

/-- Counterexample for C10 as frozen: for the document mapping the
top-level empty-string key to the sub-mapping with scalar `b`, the falsy
`parent_key` check drops the empty segment, so `flatten_json` records the
original name `b` for the (only) emitted column — but the `/`-joined nested
path of that value in the document is `/b`, not `b`. -/
theorem c10_flatten_records_paths_counterexample :
    (flatten_json (α := Nat) (.cons "" (.obj (.cons "b" (.scalar 1) .nil)) .nil)
        (load_mappings [])).1.map Prod.fst = [hashName "b"] ∧
    flatPairs (α := Nat) (.cons "" (.obj (.cons "b" (.scalar 1) .nil)) .nil)
      = [(["", "b"], 1)] ∧
    joinSegs ["", "b"] = "/b" ∧
    get_original_name
      (flatten_json (α := Nat) (.cons "" (.obj (.cons "b" (.scalar 1) .nil)) .nil)
        (load_mappings [])).2 (hashName "b") = "b" ∧
    ("b" : String) ≠ "/b" := by
  refine ⟨rfl, rfl, rfl, ?_, by decide⟩
  rfl

/-- Witness for C10: flattening the one-scalar document with key `k` records
the mapping for its digest, and reverse lookup returns `k`. -/
theorem c10_flatten_records_paths_witness :
    ∃ p, p ∈ flatPairs (α := Nat) (.cons "k" (.scalar 5) .nil) ∧
      hashName "k" = hashName (joinSegs p.1) ∧
      get_original_name
        (flatten_json (α := Nat) (.cons "k" (.scalar 5) .nil) (load_mappings [])).2
        (hashName "k") = joinSegs p.1 :=
  c10_flatten_records_paths _ (by decide)
    (by rw [show flatKeys (α := Nat) (.cons "k" (.scalar 5) .nil) "" = ["k"] from rfl]
        simp)
    (hashName "k")
    (by rw [show (flatten_json (α := Nat) (.cons "k" (.scalar 5) .nil)
          (load_mappings [])).1.map Prod.fst = [hashName "k"] from rfl]
        simp)

end JsonStorage
